import Mathlib

/- Verification of the `create-page` source-patching engine of the dolphin-cli
repository. File contents are modelled as `List Char` (JavaScript strings);
Lean string literals enter through `String.data`. Literal braces inside string
literals are written with the `\x7b` / `\x7d` escapes. -/

namespace DolphinCli

/-- File contents / JavaScript strings, as lists of characters. -/
abbrev Cs := List Char

/-! ## JavaScript string primitives

`subIdx`, `lastSubIdx`, `sContains`, `replaceFirst` model `String.prototype`'s
`indexOf`, `lastIndexOf`, `includes` and (string-pattern) `replace`. -/

/-- Helper for `subIdx`: first index `≥ i` (counting from the original start)
at which `nd` is a prefix of the remaining text. -/
def subIdxAux (nd : Cs) : Cs → Nat → Option Nat
  | [], _ => none
  | l@(_ :: xs), i => if nd.isPrefixOf l then some i else subIdxAux nd xs (i + 1)

/-- JS `hay.indexOf(nd)` (as `Option Nat` instead of `-1`). -/
def subIdx (hay nd : Cs) : Option Nat :=
  if nd.isEmpty then some 0 else subIdxAux nd hay 0

/-- Helper for `lastSubIdx`. -/
def lastSubIdxAux (nd : Cs) : Cs → Nat → Option Nat
  | [], _ => none
  | l@(_ :: xs), i =>
    match lastSubIdxAux nd xs (i + 1) with
    | some j => some j
    | none => if nd.isPrefixOf l then some i else none

/-- JS `hay.lastIndexOf(nd)` (as `Option Nat` instead of `-1`). -/
def lastSubIdx (hay nd : Cs) : Option Nat :=
  if nd.isEmpty then some hay.length else lastSubIdxAux nd hay 0

/-- JS `hay.includes(nd)`. -/
def sContains (hay nd : Cs) : Bool :=
  (subIdx hay nd).isSome

/-- JS `hay.replace(nd, repl)` with a string pattern: replace the first
occurrence of `nd`, or return `hay` unchanged when there is none.  (JS
`$`-substitution in the replacement is not modelled; the replacements the
source builds contain no `$` patterns.) -/
def replaceFirst (hay nd repl : Cs) : Cs :=
  match hay with
  | [] => if nd.isEmpty then repl else []
  | x :: xs =>
    if nd.isPrefixOf (x :: xs) then repl ++ (x :: xs).drop nd.length
    else x :: replaceFirst xs nd repl

/-- Split the text at the first occurrence of the character `c`: returns the
part up to and including `c`, and the rest.  `none` when `c` does not occur
(JS `indexOf(c)` returning `-1`). -/
def breakAfterChar (c : Char) : Cs → Option (Cs × Cs)
  | [] => none
  | x :: xs =>
    if x = c then some ([x], xs)
    else (breakAfterChar c xs).map (fun pq => (x :: pq.1, pq.2))

/-- JS `s.indexOf(c, start)` for a single character. -/
def jsIndexOfFrom (s : Cs) (c : Char) (start : Nat) : Option Nat :=
  (breakAfterChar c (s.drop start)).map (fun pq => start + pq.1.length - 1)

/-- The whitespace class used by JS `\s`, `trim` and `trimEnd` (restricted to
the ASCII whitespace characters, the ones the patched files contain). -/
def isJsWs (c : Char) : Bool :=
  c = ' ' || c = '\t' || c = '\n' || c = '\r'

/-- JS `s.trim()`. -/
def jsTrim (s : Cs) : Cs :=
  ((s.dropWhile isJsWs).reverse.dropWhile isJsWs).reverse

/-- JS `s.trimEnd()`. -/
def jsTrimEnd (s : Cs) : Cs :=
  (s.reverse.dropWhile isJsWs).reverse

/-- JS `s.replace(/,\s*$/, "")`: drop one trailing comma together with the
whitespace after it, when the string ends that way. -/
def stripTrailingComma (s : Cs) : Cs :=
  match s.reverse.dropWhile isJsWs with
  | ',' :: rest => rest.reverse
  | _ => s

/-! ## Name transform utilities (`create-page.ts`, `toPascalCase` /
`toCamelCase` / `toScreamingSnakeCase`) -/

/-- Lowercase ASCII letter (the `[a-z]` class of the source's regexes). -/
def isLowerAlpha (c : Char) : Bool :=
  97 ≤ c.toNat && c.toNat ≤ 122

/-- Uppercase ASCII letter. -/
def isUpperAlpha (c : Char) : Bool :=
  65 ≤ c.toNat && c.toNat ≤ 90

/-- ASCII digit (the `[0-9]` class). -/
def isDigitCh (c : Char) : Bool :=
  48 ≤ c.toNat && c.toNat ≤ 57

/-- JS `name.split("-")`: the list of hyphen-separated segments, keeping
empty segments. -/
def splitHyphen : Cs → List Cs
  | [] => [[]]
  | c :: rest =>
    if c = '-' then [] :: splitHyphen rest
    else
      match splitHyphen rest with
      | [] => [[c]]
      | p :: ps => (c :: p) :: ps

/-- The source's segment validation `/^[a-z0-9]+$/.test(part)`. -/
def validPart (p : Cs) : Bool :=
  !p.isEmpty && p.all (fun c => isLowerAlpha c || isDigitCh c)

/-- JS `part.charAt(0).toUpperCase() + part.slice(1)`.  (`Char.toUpper`
agrees with JS `toUpperCase` on the validated `[a-z0-9]` characters.) -/
def capitalizePart (p : Cs) : Cs :=
  match p with
  | [] => []
  | c :: rest => c.toUpper :: rest

/-- `toPascalCase` from `create-page.ts`: split on hyphens, drop empty
segments, fail on an empty input, on a hyphens-only input or on a segment
outside `[a-z0-9]+`, else capitalize every segment and concatenate.
(The source throws; this model returns `Except.error`; the source's error
message carries the offending segment, elided here.) -/
def toPascalCase (name : Cs) : Except Cs Cs :=
  if name.isEmpty then .error "Invalid name: must be a non-empty string".data
  else
    let parts := (splitHyphen name).filter (fun p => !p.isEmpty)
    if parts.isEmpty then .error "Invalid name: contains only hyphens".data
    else if parts.all validPart then .ok (parts.map capitalizePart).flatten
    else .error "Invalid name part".data

/-- `toCamelCase` from `create-page.ts`: same segmentation and validation as
`toPascalCase`, but the first segment is kept as it is. -/
def toCamelCase (name : Cs) : Except Cs Cs :=
  if name.isEmpty then .error "Invalid name: must be a non-empty string".data
  else
    let parts := (splitHyphen name).filter (fun p => !p.isEmpty)
    if parts.isEmpty then .error "Invalid name: contains only hyphens".data
    else if parts.all validPart then
      .ok (match parts with
           | [] => []
           | p :: ps => p ++ (ps.map capitalizePart).flatten)
    else .error "Invalid name part".data

/-- `toScreamingSnakeCase` from `create-page.ts`:
`name.toUpperCase()` followed by replacing every hyphen with an underscore
(the source's global-regex replace).  Uppercasing is per-character and
leaves `'-'` unchanged, so the two passes fuse into one map.  (`Char.toUpper`
agrees with JS `toUpperCase` on the `[a-z0-9-]` characters these names
consist of.) -/
def toScreamingSnakeCase (name : Cs) : Cs :=
  name.map (fun c => if c = '-' then '_' else c.toUpper)

/-! ## Patch results

Each patcher reads an optional file (`none` = the path does not exist),
possibly warns, and possibly writes the file back.  `file` is the content on
disk afterwards, `warned` whether a warning was printed, `written` whether a
write was performed. -/

structure WriteResult where
  file : Option Cs
  warned : Bool
  written : Bool
deriving Repr, DecidableEq

/-! ## `updateViteConfig` (src/utils/vite.ts)

The regex `/input:\s*\x7b([^\x7d]*)\x7d/s` is deterministic: at a given start
it matches exactly when the literal `input:` is followed by a (possibly
empty) whitespace run, an opening brace, and a closing brace somewhere
later; the group runs up to that first closing brace.  `content.match`
takes the leftmost such start. -/

/-- The regex's behaviour at one starting position: `some (inner, rest)`
when it matches there, with `inner` the captured group and `rest` the text
after the whole match. -/
def matchInputAt (l : Cs) : Option (Cs × Cs) :=
  if "input:".data.isPrefixOf l then
    let r0 := l.drop 6
    let r1 := r0.dropWhile isJsWs
    match r1 with
    | '\x7b' :: r2 =>
      let inner := r2.takeWhile (fun c => c ≠ '\x7d')
      match r2.drop inner.length with
      | '\x7d' :: r4 => some (inner, r4)
      | _ => none
    | _ => none
  else none

/-- Leftmost match of the `input:` mapping regex:
`some (pre, inner, rest)` splits the content around the match. -/
def findInputMatchAux : Cs → Cs → Option (Cs × Cs × Cs)
  | acc, [] =>
    match matchInputAt [] with
    | some (inner, rest) => some (acc.reverse, inner, rest)
    | none => none
  | acc, l@(c :: cs) =>
    match matchInputAt l with
    | some (inner, rest) => some (acc.reverse, inner, rest)
    | none => findInputMatchAux (c :: acc) cs

/-- Leftmost match of `/input:\s*\x7b([^\x7d]*)\x7d/s` in `content`. -/
def findInputMatch (content : Cs) : Option (Cs × Cs × Cs) :=
  findInputMatchAux [] content

/-- The entry `updateViteConfig` adds for a page. -/
def newViteEntry (pageName : Cs) : Cs :=
  "        ".data ++ pageName ++
    ": resolve(__dirname, \"src/client/".data ++ pageName ++
    "/index.html\"),".data

/-- `updateViteConfig` from src/utils/vite.ts.  The source's `replace` uses
the same `input:` regex as its `match`, so it rewrites exactly the matched
span, normalising `input:` + whitespace + brace to `input: \x7b`. -/
def updateViteConfig (pageName : Cs) (file : Option Cs) : WriteResult :=
  match file with
  | none => ⟨none, true, false⟩
  | some content =>
    match findInputMatch content with
    | none => ⟨some content, true, false⟩
    | some (pre, inner, rest) =>
      if sContains inner (pageName ++ ":".data) then ⟨some content, false, false⟩
      else
        let updatedInput := jsTrimEnd inner ++ "\n".data ++ newViteEntry pageName
        ⟨some (pre ++ "input: \x7b".data ++ updatedInput ++ "\n      \x7d".data ++ rest),
          false, true⟩

/-! ## `updateMainServer` (src/utils/server.ts, `part_002`) -/

/-- The router identifier `updateMainServer` builds from the route name. -/
def routerName (routeName : Cs) : Cs :=
  if sContains routeName "webhook".data then "webhookRouter".data
  else routeName ++ "Router".data

/-- The module path of the import `updateMainServer` builds. -/
def serverImportPath (routeName : Cs) : Cs :=
  if sContains routeName "webhook".data then routeName
  else "api/".data ++ routeName

/-- The import statement `updateMainServer` inserts. -/
def importStatement (routeName : Cs) : Cs :=
  "import \x7b ".data ++ routerName routeName ++ " \x7d from './".data ++
    serverImportPath routeName ++ "';".data

/-- The router mount statement `updateMainServer` inserts. -/
def mountStatement (routeName : Cs) : Cs :=
  "app.route('/', ".data ++ routerName routeName ++ ");".data

/-- The import-insertion step of `updateMainServer`:
`content.slice(0, i+1) + ins + '\n' + content.slice(i+1)` where
`i = content.indexOf('\n', content.lastIndexOf('import '))`.  A failed
`lastIndexOf` gives `-1`, which JS `indexOf` clamps to `0`; a failed
newline search gives `i = -1`, so the text is inserted at the start. -/
def insertAfterLastImportLine (content ins : Cs) : Cs :=
  let start := (lastSubIdx content "import ".data).getD 0
  match breakAfterChar '\n' (content.drop start) with
  | some (p, q) => content.take start ++ p ++ ins ++ "\n".data ++ q
  | none => ins ++ "\n".data ++ content

/-- The mount-insertion step of `updateMainServer`: when the mount statement
is absent and `app.listen` occurs, splice the statement in before it;
when `app.listen` does not occur, do nothing (and print nothing). -/
def mountStep (content mountStmt : Cs) : Cs :=
  if sContains content mountStmt then content
  else
    match subIdx content "app.listen".data with
    | some i => content.take i ++ mountStmt ++ "\n\n".data ++ content.drop i
    | none => content

/-- `updateMainServer` from src/utils/server.ts: warn and return when the
server file is missing; otherwise add the import (if absent), add the
router mount before `app.listen` (if absent and the anchor exists), and
rewrite the file unconditionally. -/
def updateMainServer (routeName : Cs) (file : Option Cs) : WriteResult :=
  match file with
  | none => ⟨none, true, false⟩
  | some content =>
    let istmt := importStatement routeName
    let c1 := if sContains content istmt then content
              else insertAfterLastImportLine content istmt
    let c2 := mountStep c1 (mountStatement routeName)
    ⟨some c2, false, true⟩

/-! ## `addRoutesToIndex` (create-page.ts, dashboard flow) -/

/-- The module path of the status-code import. -/
def honoPathLit : Cs := "hono/utils/http-status".data

/-- The module path of the schemas import. -/
def schemasPathLit : Cs := "@shared/types/request-response-schemas".data

/-- The status-code import regex
`import\s+\x7b([^\x7d]+)\x7d\s+from\s+["']hono\/utils\/http-status["'];?`
at one starting position: `some (matched, group)` when it matches there.
Every quantifier in the pattern is forced (whitespace runs are maximal, the
group runs to the first closing brace), so the match is deterministic. -/
def matchHonoImportAt (l : Cs) : Option (Cs × Cs) :=
  if "import".data.isPrefixOf l then
    let r0 := l.drop 6
    let ws1 := r0.takeWhile isJsWs
    if ws1.isEmpty then none else
    match r0.drop ws1.length with
    | '\x7b' :: r2 =>
      let g := r2.takeWhile (fun c => c ≠ '\x7d')
      if g.isEmpty then none else
      match r2.drop g.length with
      | '\x7d' :: r4 =>
        let ws2 := r4.takeWhile isJsWs
        if ws2.isEmpty then none else
        let r5 := r4.drop ws2.length
        if "from".data.isPrefixOf r5 then
          let r6 := r5.drop 4
          let ws3 := r6.takeWhile isJsWs
          if ws3.isEmpty then none else
          match r6.drop ws3.length with
          | q1 :: r8 =>
            if (q1 = '"' ∨ q1 = '\'') ∧ honoPathLit.isPrefixOf r8 then
              match r8.drop honoPathLit.length with
              | q2 :: r10 =>
                if q2 = '"' ∨ q2 = '\'' then
                  let semi : Cs := if r10.headD ' ' = ';' then [';'] else []
                  some ("import".data ++ ws1 ++ ['\x7b'] ++ g ++ ['\x7d'] ++ ws2 ++
                          "from".data ++ ws3 ++ [q1] ++ honoPathLit ++ [q2] ++ semi, g)
                else none
              | [] => none
            else none
          | [] => none
        else none
      | _ => none
    | _ => none
  else none

/-- Leftmost application of a position matcher, JS `content.match`. -/
def scanFirst (f : Cs → Option α) : Cs → Option α
  | [] => f []
  | l@(_ :: cs) =>
    match f l with
    | some r => some r
    | none => scanFirst f cs

/-- The schemas import regex
`import \x7b([^\x7d]+)\x7d from ["']@shared\/types\/request-response-schemas["'];`
at one starting position (literal single spaces, semicolon required). -/
def matchSchemasImportAt (l : Cs) : Option (Cs × Cs) :=
  if "import \x7b".data.isPrefixOf l then
    let r2 := l.drop 8
    let g := r2.takeWhile (fun c => c ≠ '\x7d')
    if g.isEmpty then none else
    match r2.drop g.length with
    | '\x7d' :: r4 =>
      if " from ".data.isPrefixOf r4 then
        match r4.drop 6 with
        | q1 :: r6 =>
          if (q1 = '"' ∨ q1 = '\'') ∧ schemasPathLit.isPrefixOf r6 then
            match r6.drop schemasPathLit.length with
            | q2 :: ';' :: _ =>
              if q2 = '"' ∨ q2 = '\'' then
                some ("import \x7b".data ++ g ++ "\x7d from ".data ++ [q1] ++
                        schemasPathLit ++ [q2, ';'], g)
              else none
            | _ => none
          else none
        | [] => none
      else none
    | _ => none
  else none

/-- The single-line status-code import the no-anchor branch inserts. -/
def honoImportLine : Cs :=
  "import \x7b ContentfulStatusCode \x7d from \"hono/utils/http-status\";\n".data

/-- Step 1 of `addRoutesToIndex`: ensure the `ContentfulStatusCode` import.
The guard tests the original content; at this point the updated content
still equals it, so the step is a function of one text. -/
def addContentfulImport (content : Cs) : Cs :=
  if sContains content "ContentfulStatusCode".data then content
  else
    match scanFirst matchHonoImportAt content with
    | none =>
      -- insert after the first line containing the first `import` occurrence;
      -- JS `indexOf('import')` returning -1 clamps the newline search to 0,
      -- and a missing newline (`firstImportEnd === -1`) skips the insertion
      let start := (subIdx content "import".data).getD 0
      match breakAfterChar '\n' (content.drop start) with
      | some (p, q) => content.take start ++ p ++ honoImportLine ++ q
      | none => content
    | some (matched, g) =>
      let existingImports := jsTrim g
      if sContains existingImports "ContentfulStatusCode".data then content
      else
        replaceFirst content matched
          ("import \x7b ".data ++ stripTrailingComma existingImports ++
             ", ContentfulStatusCode".data ++ " \x7d from \"hono/utils/http-status\";".data)

/-- The multi-line schemas import inserted when no schemas import exists. -/
def schemasImportNew (p : Cs) : Cs :=
  "import \x7b\n  Load".data ++ p ++ "ResponseSchema,\n  Save".data ++ p ++
    "RequestSchema,\n  Save".data ++ p ++
    "ResponseSchema,\n\x7d from \"@shared/types/request-response-schemas\";\n".data

/-- Step 2 of `addRoutesToIndex`: ensure the three schema imports.  The
source matches the regex against the ORIGINAL content but replaces inside
the updated content, hence the two arguments. -/
def addSchemaImports (p : Cs) (routesContent updated : Cs) : Cs :=
  if sContains routesContent ("Load".data ++ p ++ "ResponseSchema".data) then updated
  else
    match scanFirst matchSchemasImportAt routesContent with
    | some (matched, g) =>
      let cleanedImports := stripTrailingComma (jsTrim g)
      replaceFirst updated matched
        ("import \x7b".data ++ cleanedImports ++ ",\n  Load".data ++ p ++
           "ResponseSchema,\n  Save".data ++ p ++ "RequestSchema,\n  Save".data ++ p ++
           "ResponseSchema\n\x7d from \"@shared/types/request-response-schemas\";".data)
    | none =>
      match subIdx updated "import".data with
      | some i => updated.take i ++ schemasImportNew p ++ updated.drop i
      | none => updated

/-- The route-handler block `addRoutesToIndex` splices in, for PascalCase
name `p` and raw name `n` (the source's `routesToAdd` template literal). -/
def routesToAdd (p n : Cs) : Cs :=
  "\n// ".data ++
  p ++
  " endpoints\napp.get(\"/api/".data ++
  n ++
  "/load\", async (c) => \x7b\n  const user = await getAuthenticatedUser(c);\n  if (!user) \x7b\n    return sendError(c, 401, \"Unauthorized\");\n  \x7d\n\n  const shardId = c.env.USER_SHARD.idFromName(user.id);\n  const userShard = c.env.USER_SHARD.get(shardId);\n\n  const result = await userShard.load".data ++
  p ++
  "(user.id);\n\n  if (\"error\" in result) \x7b\n    return sendError(c, 500, result.error);\n  \x7d\n\n  return send(c, Load".data ++
  p ++
  "ResponseSchema, result, 200);\n\x7d);\n\napp.post(\n  \"/api/".data ++
  n ++
  "/save\",\n  zValidator(\"json\", Save".data ++
  p ++
  "RequestSchema),\n  async (c) => \x7b\n    try \x7b\n      const user = await getAuthenticatedUser(c);\n      if (!user) \x7b\n        return sendError(c, 401, \"Unauthorized\");\n      \x7d\n\n      const \x7b events \x7d = c.req.valid(\"json\");\n\n      const shardId = c.env.USER_SHARD.idFromName(user.id);\n      const userShard = c.env.USER_SHARD.get(shardId);\n\n      const result = await userShard.save".data ++
  p ++
  "(user.id, events);\n      if (\"error\" in result) \x7b\n        return sendError(c, result.statusCode as ContentfulStatusCode, result.error);\n      \x7d\n\n      return send(c, Save".data ++
  p ++
  "ResponseSchema, result, 200);\n    \x7d catch (error) \x7b\n      console.error(\"Error saving ".data ++
  n ++
  ":\", error);\n      return sendError(c, 500, \"Internal server error\");\n    \x7d\n  \x7d\n);\n".data

/-- The catch-all anchor `addRoutesToIndex` searches for. -/
def catchallPat : Cs := "app.get(\"*\"".data

/-- Step 3 of `addRoutesToIndex`: splice the route block before the first
catch-all route; failing that, before the last `export default`; failing
that, append it at the end of the file. -/
def insertRoutesBlock (p n : Cs) (updated : Cs) : Cs :=
  let block := routesToAdd p n
  match subIdx updated catchallPat with
  | some i => updated.take i ++ block ++ "\n".data ++ updated.drop i
  | none =>
    match lastSubIdx updated "export default".data with
    | some i => updated.take i ++ block ++ "\n".data ++ updated.drop i
    | none => updated ++ block

/-- The pure content transformation of `addRoutesToIndex` on an existing
routes file. -/
def addRoutesToIndexContent (p n : Cs) (routesContent : Cs) : Cs :=
  insertRoutesBlock p n
    (addSchemaImports p routesContent (addContentfulImport routesContent))

/-- `addRoutesToIndex` from create-page.ts (dashboard flow): derive the
PascalCase name (a validation failure propagates as `Except.error`), warn
and skip when the routes file is missing, otherwise patch and rewrite it. -/
def addRoutesToIndex (name : Cs) (file : Option Cs) : Except Cs WriteResult := do
  let p ← toPascalCase name
  match file with
  | none => return ⟨none, true, false⟩
  | some content => return ⟨some (addRoutesToIndexContent p name content), false, true⟩

/-! ## `addUserShardFunctions` (create-page.ts, dashboard flow) -/

/-- JS `s.split(c)`, keeping empty segments. -/
def splitChar (c : Char) : Cs → List Cs
  | [] => [[]]
  | x :: rest =>
    if x = c then [] :: splitChar c rest
    else
      match splitChar c rest with
      | [] => [[x]]
      | p :: ps => (x :: p) :: ps

/-- The shard-file schemas import regex
`import (?:type )?\x7b([^\x7d]+)\x7d from ["']@shared\/types\/request-response-schemas["'];`:
the optional `type ` is tried greedily first, with a fallback without it. -/
def matchShardImportAt (l : Cs) : Option (Cs × Cs) :=
  if "import ".data.isPrefixOf l then
    let tryAfter : Cs → Cs → Option (Cs × Cs) := fun consumed r =>
      match r with
      | '\x7b' :: r2 =>
        let g := r2.takeWhile (fun c => c ≠ '\x7d')
        if g.isEmpty then none else
        match r2.drop g.length with
        | '\x7d' :: r4 =>
          if " from ".data.isPrefixOf r4 then
            match r4.drop 6 with
            | q1 :: r6 =>
              if (q1 = '"' ∨ q1 = '\'') ∧ schemasPathLit.isPrefixOf r6 then
                match r6.drop schemasPathLit.length with
                | q2 :: ';' :: _ =>
                  if q2 = '"' ∨ q2 = '\'' then
                    some ("import ".data ++ consumed ++ ['\x7b'] ++ g ++
                            "\x7d from ".data ++ [q1] ++ schemasPathLit ++ [q2, ';'], g)
                  else none
                | _ => none
              else none
            | [] => none
          else none
        | _ => none
      | _ => none
    let r0 := l.drop 7
    if "type ".data.isPrefixOf r0 then
      match tryAfter "type ".data (r0.drop 5) with
      | some res => some res
      | none => tryAfter [] r0
    else tryAfter [] r0
  else none

/-- Step 1 of `addUserShardFunctions`: ensure the `ErrorResponse` /
`Load…Response` / `Save…Response` imports. -/
def addShardSchemaImports (p : Cs) (u : Cs) : Cs :=
  if sContains u ("Load".data ++ p ++ "Response".data) then u
  else
    match scanFirst matchShardImportAt u with
    | some (matched, g) =>
      let existingImports := jsTrim g
      let existingList := (splitChar ',' existingImports).map jsTrim
      let importsToAdd :=
        let base := ["Load".data ++ p ++ "Response".data, "Save".data ++ p ++ "Response".data]
        if existingList.contains "ErrorResponse".data then base
        else "ErrorResponse".data :: base
      let newImportsList := importsToAdd.filter (fun i => !existingList.contains i)
      if newImportsList.isEmpty then u
      else
        let cleanedImports := stripTrailingComma existingImports
        replaceFirst u matched
          ("import \x7b ".data ++ cleanedImports ++ ", ".data ++
             (newImportsList.intersperse ", ".data).flatten ++
             " \x7d from \"@shared/types/request-response-schemas\";".data)
    | none =>
      match subIdx u "import".data with
      | some i =>
        u.take i ++
          ("import \x7b ErrorResponse, Load".data ++ p ++ "Response, Save".data ++ p ++
             "Response \x7d from \"@shared/types/request-response-schemas\";\n".data) ++
          u.drop i
      | none => u

/-- Step 2 of `addUserShardFunctions`: ensure the events-type imports.  The
source's regex is a regex literal containing an uninterpolated `$\x7b…\x7d`,
whose mid-pattern `$` anchor makes it unmatchable, so the match is always
`null` and only the fallback branch can run: insert the events import at the
end of the line containing the first `@shared/types/request-response-schemas`
occurrence.  A line without a newline terminator hits JS
`slice(0, -1) / slice(-1)`, splicing before the last character. -/
def addShardEventImports (p m : Cs) (u : Cs) : Cs :=
  if sContains u (p ++ "Event".data) then u
  else
    match subIdx u schemasPathLit with
    | none => u
    | some si =>
      let imp := "\nimport \x7b ".data ++ p ++ "Event, ".data ++ p ++ "Change, ".data ++
        p ++ "EventResult, handle".data ++ p ++
        "Change \x7d from \"@shared/types/".data ++ m ++ "Events\";".data
      match jsIndexOfFrom u '\n' si with
      | some e => u.take e ++ imp ++ u.drop e
      | none => u.dropLast ++ imp ++ u.drop (u.length - 1)

/-- The `load…` / `save…` method bodies `addUserShardFunctions` splices
before the class's final closing brace (the source's `functionsToAdd`). -/
def functionsToAdd (p n : Cs) : Cs :=
  "\n  async load".data ++
  p ++
  "(userId: string): Promise<Load".data ++
  p ++
  "Response | ErrorResponse> \x7b\n    try \x7b\n      // TODO: Implement load logic for ".data ++
  n ++
  "\n      // Example: Query your schema tables and return data\n      const data = \x7b\n        // Add your data loading logic here\n      \x7d;\n\n      return \x7b\n        data,\n        // Add other response fields as needed\n      \x7d as Load".data ++
  p ++
  "Response;\n    \x7d catch (error) \x7b\n      console.error(\"Error loading ".data ++
  n ++
  ":\", error);\n      return \x7b\n        error: \"Failed to load ".data ++
  n ++
  "\",\n        success: false,\n        statusCode: 500,\n      \x7d;\n    \x7d\n  \x7d\n\n  async save".data ++
  p ++
  "(\n    userId: string,\n    events: ".data ++
  p ++
  "Event[]\n  ): Promise<Save".data ++
  p ++
  "Response | ErrorResponse> \x7b\n    try \x7b\n      const results: ".data ++
  p ++
  "EventResult[] = [];\n      let processedCount = 0;\n\n      for (const event of events) \x7b\n        try \x7b\n          // Server adds persistence metadata\n          const change: ".data ++
  p ++
  "Change = \x7b\n            ...event,\n            id: crypto.randomUUID(),\n            timestamp: Date.now(),\n            description: `$\x7bevent.type\x7d event`,\n          \x7d;\n\n          const result = await handle".data ++
  p ++
  "Change(\n            this.env.DB,\n            this.shardDb,\n            change\n          );\n\n          if (result.success && result.result) \x7b\n            results.push(result.result);\n            processedCount++;\n          \x7d\n        \x7d catch (error) \x7b\n          console.error(\"Error processing ".data ++
  n ++
  " event:\", error, event);\n        \x7d\n      \x7d\n\n      return \x7b\n        success: true,\n        processedCount,\n        totalChanges: events.length,\n        results,\n      \x7d as Save".data ++
  p ++
  "Response;\n    \x7d catch (error) \x7b\n      console.error(\"Error saving ".data ++
  n ++
  ":\", error);\n      return \x7b\n        error: \"Failed to save ".data ++
  n ++
  " changes\",\n        success: false,\n        statusCode: 500,\n      \x7d;\n    \x7d\n  \x7d\n".data

/-- The pure content transformation of `addUserShardFunctions` on an
existing shard-class file. -/
def addUserShardContent (p m n : Cs) (content : Cs) : Cs :=
  let u1 := addShardSchemaImports p content
  let u2 := addShardEventImports p m u1
  match lastSubIdx u2 "\x7d".data with
  | some i => u2.take i ++ functionsToAdd p n ++ "\n".data ++ u2.drop i
  | none => u2

/-- `addUserShardFunctions` from create-page.ts: derive the name forms, warn
and skip when the shard file is missing, otherwise patch and rewrite it. -/
def addUserShardFunctions (name : Cs) (file : Option Cs) : Except Cs WriteResult := do
  let p ← toPascalCase name
  let m ← toCamelCase name
  match file with
  | none => return ⟨none, true, false⟩
  | some content => return ⟨some (addUserShardContent p m name content), false, true⟩

/-! ## The request/response-schemas file step (create-page.ts, dashboard
flow, step 8) -/

/-- The schema declarations generated for one identifier (the source's
`typesToAppend` template), for PascalCase `p` and camelCase `m`. -/
def typesToAppend (p m : Cs) : Cs :=
  "\n// ".data ++
  p ++
  " API Types\nimport type \x7b ".data ++
  p ++
  "Event, ".data ++
  p ++
  "EventResult \x7d from \"./".data ++
  m ++
  "Events\";\n\nexport const Load".data ++
  p ++
  "RequestSchema = z.object(\x7b\x7d);\n\nexport const Load".data ++
  p ++
  "ResponseSchema = z.object(\x7b\n  data: z.any(), // Update this with your specific data schema\n  // Add your response properties here\n\x7d);\n\nexport const Save".data ++
  p ++
  "RequestSchema = z.object(\x7b\n  events: z.array(z.custom<".data ++
  p ++
  "Event>()),\n\x7d);\n\nexport const Save".data ++
  p ++
  "ResponseSchema = z.object(\x7b\n  success: z.boolean(),\n  processedCount: z.number(),\n  totalChanges: z.number(),\n  results: z.array(z.custom<".data ++
  p ++
  "EventResult>()),\n\x7d);\n\nexport type Load".data ++
  p ++
  "Request = z.infer<typeof Load".data ++
  p ++
  "RequestSchema>;\nexport type Load".data ++
  p ++
  "Response = z.infer<typeof Load".data ++
  p ++
  "ResponseSchema>;\nexport type Save".data ++
  p ++
  "Request = z.infer<typeof Save".data ++
  p ++
  "RequestSchema>;\nexport type Save".data ++
  p ++
  "Response = z.infer<typeof Save".data ++
  p ++
  "ResponseSchema>;".data

/-- The fixed preamble used when the schemas file is created fresh: the zod
import, the `ErrorResponseSchema` declaration and the `ErrorResponse` type. -/
def schemasPreamble : Cs :=
  "import \x7b z \x7d from \"zod\";\n\nexport const ErrorResponseSchema = z.object(\x7b\n  success: z.literal(false),\n  error: z.string(),\n  statusCode: z.number(),\n\x7d);\n\nexport type ErrorResponse = z.infer<typeof ErrorResponseSchema>;\n".data

/-- Step 8's schemas-file update: append the generated declarations to an
existing file, or create the file as preamble + declarations. -/
def updateSchemasFile (p m : Cs) (file : Option Cs) : Cs :=
  match file with
  | some existingContent => existingContent ++ typesToAppend p m
  | none => schemasPreamble ++ typesToAppend p m

/-! ## The dashboard generation flow (create-page.ts,
`createDashboardPageFlow`) -/

/-- The collaborator files the flow reads and patches (`none` = the path
does not exist), plus the paths of the fresh page/template files it emits.
Fresh emissions are pure template writes; the model records their paths in
order and elides their contents (no claim concerns them). -/
structure GenFs where
  routesFile : Option Cs
  userShardFile : Option Cs
  schemasFile : Option Cs
  viteConfig : Option Cs
  emitted : List Cs
deriving Repr, DecidableEq

/-- `createDashboardPageFlow`: emit the page files, update the vite config
(step 7), emit the API client, update the schemas file (step 8), emit the
autosave/undo-redo services, patch the routes file (step 11) and the shard
file (step 12), emit the events file (step 13), and update the vite config
again (step 14).  Returns the resulting file state and how many warnings
the patch steps printed. -/
def createDashboardPageFlow (name : Cs) (fs0 : GenFs) : Except Cs (GenFs × Nat) := do
  let p ← toPascalCase name
  let m ← toCamelCase name
  let client := "src/client/".data ++ name ++ "/".data
  let fs1 := { fs0 with emitted := fs0.emitted ++
    ["src/client/".data ++ name ++ "/index.html".data,
     "src/client/".data ++ name ++ "/index.tsx".data,
     client ++ p ++ ".tsx".data,
     client ++ p ++ ".tsx".data,
     client ++ p ++ "Context.tsx".data,
     client ++ m ++ "EventProcessor.ts".data] }
  let v1 := updateViteConfig name fs1.viteConfig
  let fs2 := { fs1 with viteConfig := v1.file,
                        emitted := fs1.emitted ++ [client ++ p ++ "ApiClient.ts".data] }
  let fs3 := { fs2 with schemasFile := some (updateSchemasFile p m fs2.schemasFile),
                        emitted := fs2.emitted ++
                          [client ++ p ++ "AutosaveService.ts".data,
                           client ++ p ++ "UndoRedoService.ts".data] }
  let r ← addRoutesToIndex name fs3.routesFile
  let fs4 := { fs3 with routesFile := r.file }
  let s ← addUserShardFunctions name fs4.userShardFile
  let fs5 := { fs4 with userShardFile := s.file,
                        emitted := fs4.emitted ++ ["shared/types/".data ++ m ++ "Events.ts".data] }
  let v2 := updateViteConfig name fs5.viteConfig
  let fs6 := { fs5 with viteConfig := v2.file }
  return (fs6, (if v1.warned then 1 else 0) + (if r.warned then 1 else 0) +
    (if s.warned then 1 else 0) + (if v2.warned then 1 else 0))

/-! ## The `create-page` command action: validation and the collision guard
(create-page.ts, `createPageCommand.action`) -/

/-- The reserved JavaScript/TypeScript keywords the action rejects. -/
def reservedKeywords : List Cs :=
  ["abstract".data, "arguments".data, "await".data, "boolean".data, "break".data,
   "byte".data, "case".data, "catch".data, "char".data, "class".data, "const".data,
   "continue".data, "debugger".data, "default".data, "delete".data, "do".data,
   "double".data, "else".data, "enum".data, "eval".data, "export".data,
   "extends".data, "false".data, "final".data, "finally".data, "float".data,
   "for".data, "function".data, "goto".data, "if".data, "implements".data,
   "import".data, "in".data, "instanceof".data, "int".data, "interface".data,
   "let".data, "long".data, "native".data, "new".data, "null".data, "package".data,
   "private".data, "protected".data, "public".data, "return".data, "short".data,
   "static".data, "super".data, "switch".data, "synchronized".data, "this".data,
   "throw".data, "throws".data, "transient".data, "true".data, "try".data,
   "typeof".data, "var".data, "void".data, "volatile".data, "while".data,
   "with".data, "yield".data]

/-- The structurally reserved names the action rejects. -/
def reservedNames : List Cs :=
  ["index".data, "default".data, "constructor".data, "prototype".data]

/-- The shape regex `^[a-z][a-z0-9-]*$` of the action's validation. -/
def matchesKebabShape (name : Cs) : Bool :=
  match name with
  | [] => false
  | c :: rest => isLowerAlpha c && rest.all (fun c => isLowerAlpha c || isDigitCh c || c = '-')

/-- The action's validation pipeline, in source order; `some msg` is the
first failure (the source prints `msg` and exits with code 1). -/
def validatePageName (name : Cs) : Option Cs :=
  if name.isEmpty || (jsTrim name).isEmpty then
    some "Page name cannot be empty".data
  else if name.any isJsWs then
    some "Page name cannot contain spaces or whitespace".data
  else if !matchesKebabShape name then
    some "Page name must start with a letter and contain only lowercase letters, numbers, and hyphens".data
  else if sContains name "--".data then
    some "Page name cannot contain consecutive hyphens".data
  else if name.headD ' ' = '-' || name.getLastD ' ' = '-' then
    some "Page name cannot start or end with a hyphen".data
  else if reservedKeywords.contains name then
    some ("Page name \"".data ++ name ++ "\" is a reserved JavaScript/TypeScript keyword".data)
  else if reservedNames.contains name then
    some ("Page name \"".data ++ name ++ "\" is a reserved name and might cause conflicts".data)
  else
    match toPascalCase name, toCamelCase name with
    | .ok _, .ok _ => none
    | _, _ => some "Invalid page name".data

/-- The action up to the point where a flow starts: run the validation
checks (no file system access), then test whether `src/client/<name>`
exists (the first file-system access) and refuse on a collision.  `Except.ok`
means the action goes on to the confirmation prompt and the generation flow;
every file write of the command happens inside the flows, after this. -/
def createPageGuard (name : Cs) (pageDirExists : Bool) : Except (Nat × Cs) Unit :=
  match validatePageName name with
  | some msg => .error (1, msg)
  | none =>
    if pageDirExists then
      .error (1, "Page \"".data ++ name ++ "\" already exists at src/client/".data ++ name)
    else .ok ()


/-! ## Auxiliary measures and concrete fixtures used by the claims -/

/-- Number of (possibly overlapping) occurrences of `nd` in `hay`. -/
def countSubAux (nd : Cs) : Cs → Nat
  | [] => 0
  | l@(_ :: xs) => (if nd.isPrefixOf l then 1 else 0) + countSubAux nd xs

/-- Occurrence count of a substring (the "exactly one entry" measure). -/
def countSub (hay nd : Cs) : Nat := countSubAux nd hay

/-- Tail-recursive list equality (kernel-friendly on long computed lists). -/
def csEq : Cs → Cs → Bool
  | [], [] => true
  | x :: xs, y :: ys => if x = y then csEq xs ys else false
  | _, _ => false

/-- A small conventional routes file: a schemas import, a catch-all route
and a default export (the shape `addRoutesToIndex` expects). -/
def routesFileFixture : Cs :=
  ("import \x7b Hono \x7d from \"hono\";\nimport \x7b\n  LoadFooResponseSchema,\n\x7d from \"@shared/types/request-response-schemas\";\n\nconst app = new Hono();\n\napp.get(\"*\", (c) => c.text(\"404\"));\n\nexport default app;\n").data

/-- The routes file after one `create-page user-profile` patch. -/
def routesFileOnce : Cs :=
  addRoutesToIndexContent "UserProfile".data "user-profile".data routesFileFixture

/-- The routes file after patching a second time with the same identifier. -/
def routesFileTwice : Cs :=
  addRoutesToIndexContent "UserProfile".data "user-profile".data routesFileOnce

/-- The route block generated for `user-profile`. -/
def upRouteBlock : Cs := routesToAdd "UserProfile".data "user-profile".data

/-- A routes file with no catch-all route and no default export. -/
def bareRoutesFile : Cs := "const app = new Hono();\n".data

/-- `bareRoutesFile` after one `create-page user-profile` patch. -/
def bareRoutesFileAfter : Cs :=
  addRoutesToIndexContent "UserProfile".data "user-profile".data bareRoutesFile

/-- A routes file that already carries both import markers and has neither
insertion anchor. -/
def markersRoutesFile : Cs :=
  "// ContentfulStatusCode LoadUserProfileResponseSchema\nconst app = new Hono();\n".data

/-- The repository's example vite config (test/vite.config.ts). -/
def viteConfigFixture : Cs :=
  ("import \x7b defineConfig \x7d from \"vite\";\nimport solid from \"vite-plugin-solid\";\nimport \x7b resolve \x7d from \"path\";\n\nexport default defineConfig(\x7b\n  plugins: [solid()],\n  appType: \"mpa\",\n  root: \"src/client\",\n  publicDir: \"../../public\",\n  build: \x7b\n    outDir: \"../../dist/client\",\n    emptyOutDir: true,\n    target: \"esnext\",\n    rollupOptions: \x7b\n      input: \x7b\n        main: resolve(__dirname, \"src/client/index.html\"),\n      \x7d,\n    \x7d,\n  \x7d,\n  resolve: \x7b\n    alias: \x7b\n      \"~\": resolve(__dirname, \"./src\"),\n      \"@shared\": resolve(__dirname, \"./shared\"),\n    \x7d,\n  \x7d,\n  server: \x7b\n    host: true,\n    port: 3000,\n    strictPort: true,\n  \x7d,\n  esbuild: \x7b\n    jsx: \"preserve\",\n    jsxImportSource: \"solid-js\",\n  \x7d,\n\x7d);\n").data

/-- The vite config after adding the `user-profile` page. -/
def viteConfigFixtureAfter : Cs :=
  ((updateViteConfig "user-profile".data (some viteConfigFixture)).file).getD []

/-- The `user-profile` entry the config must gain. -/
def upViteEntryNeedle : Cs :=
  "user-profile: resolve(__dirname, \"src/client/user-profile/index.html\")".data

/-- A vite config with no recognisable `input:` mapping. -/
def viteConfigNoAnchor : Cs :=
  "export default defineConfig([]);\n".data

/-- A minimal server index file with no `app.listen` call. -/
def serverIndexFixture : Cs := "const x = 1;\n".data

/-- A file state whose routes and shard files are missing. -/
def genFsMissing : GenFs :=
  ⟨none, none, none, some viteConfigFixture, []⟩

/-- A file state with no schemas file. -/
def genFsNoSchemas : GenFs :=
  ⟨some routesFileFixture, none, none, some viteConfigFixture, []⟩

/-! ## Lemmas: the search primitives against `List.IsInfix` -/

theorem infix_iff_exists_drop {nd l : Cs} : nd <:+: l ↔ ∃ j, nd <+: l.drop j := by
  constructor
  · rintro ⟨s, t, rfl⟩
    exact ⟨s.length, by simp [ List.drop_left]⟩
  · rintro ⟨j, h⟩
    exact List.infix_iff_prefix_suffix.mpr ⟨l.drop j, h, List.drop_suffix j l⟩

theorem subIdxAux_none {nd : Cs} (hnd : nd ≠ []) :
    ∀ (l : Cs) (i : Nat), subIdxAux nd l i = none ↔ ∀ j, ¬ nd <+: l.drop j := by
  intro l
  induction l with
  | nil =>
    intro i
    simp only [subIdxAux, List.drop_nil]
    constructor
    · intro _ j h
      exact hnd (List.prefix_nil.mp h)
    · intro _
      trivial
  | cons x xs ih =>
    intro i
    simp only [subIdxAux]
    by_cases hp : nd.isPrefixOf (x :: xs) = true
    · rw [if_pos hp]
      constructor
      · intro h; exact absurd h (by simp)
      · intro h
        exact absurd (List.isPrefixOf_iff_prefix.mp hp) (by simpa using h 0)
    · rw [if_neg hp, ih]
      constructor
      · intro h j
        cases j with
        | zero =>
          simpa using fun hc => hp (List.isPrefixOf_iff_prefix.mpr hc)
        | succ j => simpa using h j
      · intro h j
        simpa using h (j + 1)

theorem subIdx_none_iff {hay nd : Cs} : subIdx hay nd = none ↔ ¬ nd <:+: hay := by
  unfold subIdx
  by_cases h : nd.isEmpty
  · rw [if_pos h]
    have : nd = [] := by simpa [List.isEmpty_iff] using h
    subst this
    simp
  · rw [if_neg h]
    have hnd : nd ≠ [] := by simpa [List.isEmpty_iff] using h
    rw [subIdxAux_none hnd hay 0, infix_iff_exists_drop]
    push_neg
    simp

theorem sContains_eq_false_iff {hay nd : Cs} : sContains hay nd = false ↔ ¬ nd <:+: hay := by
  rw [← subIdx_none_iff]
  unfold sContains
  cases subIdx hay nd <;> simp

theorem sContains_eq_true_iff {hay nd : Cs} : sContains hay nd = true ↔ nd <:+: hay := by
  constructor
  · intro h
    by_contra hc
    rw [sContains_eq_false_iff.mpr hc] at h
    exact absurd h (by simp)
  · intro h
    cases hb : sContains hay nd
    · exact absurd h (sContains_eq_false_iff.mp hb)
    · rfl

theorem lastSubIdxAux_none {nd : Cs} (hnd : nd ≠ []) :
    ∀ (l : Cs) (i : Nat), lastSubIdxAux nd l i = none ↔ ∀ j, ¬ nd <+: l.drop j := by
  intro l
  induction l with
  | nil =>
    intro i
    simp only [lastSubIdxAux, List.drop_nil]
    constructor
    · intro _ j h
      exact hnd (List.prefix_nil.mp h)
    · intro _
      trivial
  | cons x xs ih =>
    intro i
    simp only [lastSubIdxAux]
    cases hrec : lastSubIdxAux nd xs (i + 1) with
    | some j =>
      simp only []
      constructor
      · intro h; exact absurd h (by simp)
      · intro h
        have := (ih (i + 1)).mpr (fun j => by simpa using h (j + 1))
        rw [hrec] at this
        exact absurd this (by simp)
    | none =>
      simp only []
      by_cases hp : nd.isPrefixOf (x :: xs) = true
      · rw [if_pos hp]
        constructor
        · intro h; exact absurd h (by simp)
        · intro h
          exact absurd (List.isPrefixOf_iff_prefix.mp hp) (by simpa using h 0)
      · rw [if_neg hp]
        have hxs := (ih (i + 1)).mp hrec
        constructor
        · intro _ j
          cases j with
          | zero =>
            simpa using fun hc => hp (List.isPrefixOf_iff_prefix.mpr hc)
          | succ j => simpa using hxs j
        · intro _; rfl

theorem lastSubIdx_none_iff {hay nd : Cs} : lastSubIdx hay nd = none ↔ ¬ nd <:+: hay := by
  unfold lastSubIdx
  by_cases h : nd.isEmpty
  · rw [if_pos h]
    have : nd = [] := by simpa [List.isEmpty_iff] using h
    subst this
    simp
  · rw [if_neg h]
    have hnd : nd ≠ [] := by simpa [List.isEmpty_iff] using h
    rw [lastSubIdxAux_none hnd hay 0, infix_iff_exists_drop]
    push_neg
    simp

/-- Decomposing an occurrence inside a concatenation: the needle lies in the
left part, lies in the right part, or spans the boundary. -/
theorem infix_append_split {m x y : Cs} (h : m <:+: x ++ y) :
    m <:+: x ∨ m <:+: y ∨
      ∃ s t, m = s ++ t ∧ s ≠ [] ∧ t ≠ [] ∧ s <:+ x ∧ t <+: y := by
  obtain ⟨p, q, hpq⟩ := h
  rw [List.append_assoc] at hpq
  rcases List.append_eq_append_iff.mp hpq with ⟨a, hx, hmq⟩ | ⟨c, _, hy⟩
  · rcases List.append_eq_append_iff.mp hmq with ⟨w, ha, _⟩ | ⟨w, hm, hy'⟩
    · left
      exact ⟨p, w, by rw [hx, ha, List.append_assoc]⟩
    · by_cases hw : a = []
      · subst hw
        right; left
        refine List.IsPrefix.isInfix ⟨q, ?_⟩
        rw [hm]
        simpa using hy'.symm
      · by_cases hw' : w = []
        · subst hw'
          left
          rw [List.append_nil] at hm
          exact List.IsSuffix.isInfix (hm ▸ ⟨p, hx.symm⟩)
        · right; right
          exact ⟨a, w, hm, hw, hw', ⟨p, hx.symm⟩, ⟨q, hy'.symm⟩⟩
  · right; left
    exact ⟨c, q, by rw [List.append_assoc, hy]⟩

/-- A newline-free needle absent from `c` and from a block `R` that starts
with a newline is absent from `c ++ R`. -/
theorem not_infix_append_nlBlock {m c R : Cs} (hc : ¬ m <:+: c) (hR : ¬ m <:+: R)
    (hm : '\n' ∉ m) (hhead : R.head? = some '\n') : ¬ m <:+: c ++ R := by
  intro h
  rcases infix_append_split h with h1 | h2 | ⟨s, t, hmeq, _, ht, _, htp⟩
  · exact hc h1
  · exact hR h2
  · cases t with
    | nil => exact ht rfl
    | cons th tt =>
      obtain ⟨u, hu⟩ := htp
      have hth : th = '\n' := by
        have := congrArg List.head? hu
        simpa [hhead] using this
      exact hm (by rw [hmeq, hth]; simp)

/-- A newline-free needle that occurs neither in `A ++ B` nor in the
newline-free segment `I` does not occur after splicing `I ++ '\n'` in at a
line boundary (`A` empty or ending with a newline). -/
theorem not_infix_splice {m A I B : Cs} (hm : '\n' ∉ m)
    (hAB : ¬ m <:+: A ++ B) (hI : ¬ m <:+: I)
    (hA : A = [] ∨ ∃ A', A = A' ++ ['\n']) :
    ¬ m <:+: A ++ (I ++ '\n' :: B) := by
  intro h
  rcases infix_append_split h with h1 | h2 | ⟨s, t, hmeq, hs, ht, hsx, htp⟩
  · exact hAB (h1.trans (List.prefix_append A B).isInfix)
  · rcases infix_append_split h2 with h3 | h4 | ⟨s, t, hmeq, hs, ht, _, htp⟩
    · exact hI h3
    · rcases List.infix_cons_iff.mp h4 with hpre | hinf
      · cases m with
        | nil => exact hAB (by simp)
        | cons mh mt =>
          obtain ⟨u, hu⟩ := hpre
          have : mh = '\n' := by
            have := congrArg List.head? hu
            simpa using this
          exact hm (by rw [this]; simp)
      · exact hAB (hinf.trans (List.suffix_append A B).isInfix)
    · cases t with
      | nil => exact ht rfl
      | cons th tt =>
        obtain ⟨u, hu⟩ := htp
        have hth : th = '\n' := by
          have := congrArg List.head? hu
          simpa using this
        exact hm (by rw [hmeq, hth]; simp)
  · rcases hA with rfl | ⟨A', rfl⟩
    · exact hs (List.suffix_nil.mp hsx)
    · have hlast : s.getLast hs = (A' ++ ['\n']).getLast (by simp) :=
        List.IsSuffix.getLast hsx hs
      rw [List.getLast_append_singleton] at hlast
      have : '\n' ∈ s := hlast ▸ List.getLast_mem hs
      exact hm (by rw [hmeq]; exact List.mem_append_left _ this)

/-! ## Lemmas: `Char.toUpper` on the validated character classes -/

theorem toNat_ofNat_valid {n : Nat} (h : n < 55296) : (Char.ofNat n).toNat = n := by
  rw [Char.ofNat, dif_pos (Or.inl h)]
  rfl

theorem toUpper_toNat_of_lower {c : Char} (h1 : 97 ≤ c.toNat) (h2 : c.toNat ≤ 122) :
    c.toUpper.toNat = c.toNat - 32 := by
  rw [Char.toUpper, if_pos ⟨h1, h2⟩]
  exact toNat_ofNat_valid (by omega)

theorem toUpper_eq_self_of_lt {c : Char} (h : c.toNat < 97) : c.toUpper = c := by
  rw [Char.toUpper, if_neg (fun hc => by omega)]

theorem isUpperAlpha_toUpper {c : Char} (h : isLowerAlpha c = true) :
    isUpperAlpha c.toUpper = true := by
  have h' : 97 ≤ c.toNat ∧ c.toNat ≤ 122 := by
    simpa [isLowerAlpha, Bool.and_eq_true, decide_eq_true_eq] using h
  have := toUpper_toNat_of_lower h'.1 h'.2
  simp only [isUpperAlpha, Bool.and_eq_true, decide_eq_true_eq, this]
  omega

theorem toUpper_ne_hyphen {c : Char} (h : (isLowerAlpha c || isDigitCh c) = true) :
    c.toUpper ≠ '-' := by
  have h45 : ('-' : Char).toNat = 45 := by decide
  rcases Bool.or_eq_true _ _ |>.mp h with hl | hd
  · have h' : 97 ≤ c.toNat ∧ c.toNat ≤ 122 := by
      simpa [isLowerAlpha, Bool.and_eq_true, decide_eq_true_eq] using hl
    intro hc
    have h32 := toUpper_toNat_of_lower h'.1 h'.2
    rw [hc, h45] at h32
    omega
  · have h' : 48 ≤ c.toNat ∧ c.toNat ≤ 57 := by
      simpa [isDigitCh, Bool.and_eq_true, decide_eq_true_eq] using hd
    intro hc
    have heq := toUpper_eq_self_of_lt (c := c) (by omega)
    rw [hc] at heq
    have hcn := congrArg Char.toNat heq
    rw [h45] at hcn
    omega

/-! ## Lemmas: `splitHyphen` -/

theorem splitHyphen_ne_nil (l : Cs) : splitHyphen l ≠ [] := by
  cases l with
  | nil => simp [splitHyphen]
  | cons c rest =>
    unfold splitHyphen
    by_cases h : c = '-'
    · rw [if_pos h]; simp
    · rw [if_neg h]
      cases splitHyphen rest <;> simp

theorem mem_splitHyphen_mem {l p : Cs} (hp : p ∈ splitHyphen l) :
    ∀ c ∈ p, c ∈ l ∧ c ≠ '-' := by
  induction l generalizing p with
  | nil =>
    simp only [splitHyphen, List.mem_singleton] at hp
    subst hp
    intro c hc
    exact absurd hc (by simp)
  | cons x xs ih =>
    unfold splitHyphen at hp
    by_cases hx : x = '-'
    · rw [if_pos hx] at hp
      rcases List.mem_cons.mp hp with rfl | hp'
      · intro c hc; exact absurd hc (by simp)
      · intro c hc
        obtain ⟨h1, h2⟩ := ih hp' c hc
        exact ⟨List.mem_cons_of_mem _ h1, h2⟩
    · rw [if_neg hx] at hp
      cases hs : splitHyphen xs with
      | nil => exact absurd hs (splitHyphen_ne_nil xs)
      | cons q qs =>
        rw [hs] at hp
        rcases List.mem_cons.mp hp with rfl | hp'
        · intro c hc
          rcases List.mem_cons.mp hc with rfl | hc'
          · exact ⟨List.mem_cons_self _ _, hx⟩
          · obtain ⟨h1, h2⟩ := ih (hs ▸ List.mem_cons_self q qs) c hc'
            exact ⟨List.mem_cons_of_mem _ h1, h2⟩
        · intro c hc
          obtain ⟨h1, h2⟩ := ih (hs ▸ List.mem_cons_of_mem q hp') c hc
          exact ⟨List.mem_cons_of_mem _ h1, h2⟩

theorem splitHyphen_cons_head {c : Char} {rest : Cs} (h : c ≠ '-') :
    ∃ q qs, splitHyphen (c :: rest) = (c :: q) :: qs := by
  unfold splitHyphen
  rw [if_neg h]
  cases splitHyphen rest with
  | nil => exact ⟨[], [], rfl⟩
  | cons q qs => exact ⟨q, qs, rfl⟩

theorem isLowerAlpha_ne_hyphen {c : Char} (h : isLowerAlpha c = true) : c ≠ '-' := by
  intro hc
  rw [hc] at h
  exact absurd h (by decide)

/-- Characters of every segment of a shape-valid name are lowercase letters
or digits. -/
theorem splitHyphen_chars_valid {c0 : Char} {rest : Cs}
    (h0 : isLowerAlpha c0 = true)
    (hall : ∀ c ∈ rest, (isLowerAlpha c || isDigitCh c || decide (c = '-')) = true) :
    ∀ p ∈ splitHyphen (c0 :: rest), ∀ ch ∈ p, (isLowerAlpha ch || isDigitCh ch) = true := by
  intro p hp ch hc
  obtain ⟨h1, h2⟩ := mem_splitHyphen_mem hp ch hc
  rcases List.mem_cons.mp h1 with rfl | hmem
  · simp [h0]
  · have := hall ch hmem
    rcases Bool.or_eq_true _ _ |>.mp this with hcls | heq
    · exact hcls
    · exact absurd (of_decide_eq_true heq) h2

/-- The segments of a shape-valid name pass the segment validation, and the
segment list starts with a segment headed by the name's first character. -/
theorem parts_of_shape {c0 : Char} {rest : Cs}
    (h0 : isLowerAlpha c0 = true)
    (hall : ∀ c ∈ rest, (isLowerAlpha c || isDigitCh c || decide (c = '-')) = true) :
    ∃ q qs, (splitHyphen (c0 :: rest)).filter (fun p => !p.isEmpty) = (c0 :: q) :: qs ∧
      ((splitHyphen (c0 :: rest)).filter (fun p => !p.isEmpty)).all validPart = true := by
  obtain ⟨q, qs, hsH⟩ := splitHyphen_cons_head (isLowerAlpha_ne_hyphen h0)
  refine ⟨q, qs.filter (fun p => !p.isEmpty), ?_, ?_⟩
  · rw [hsH, List.filter_cons_of_pos (by simp)]
  · rw [List.all_eq_true]
    intro p hp
    obtain ⟨hmem, hne⟩ := List.mem_filter.mp hp
    have hchars := splitHyphen_chars_valid h0 hall p hmem
    simp only [validPart, Bool.and_eq_true, List.all_eq_true]
    exact ⟨by simpa using hne, hchars⟩

theorem isDigitCh_ne_hyphen {c : Char} (h : isDigitCh c = true) : c ≠ '-' := by
  intro hc
  rw [hc] at h
  exact absurd h (by decide)

/-- No character of a capitalized valid segment is a hyphen. -/
theorem flatten_capitalize_no_hyphen {L : List Cs}
    (hmem : ∀ p ∈ L, p ≠ [] ∧ ∀ ch ∈ p, (isLowerAlpha ch || isDigitCh ch) = true) :
    ∀ ch ∈ (L.map capitalizePart).flatten, ch ≠ '-' := by
  intro ch hch
  obtain ⟨pp, hpp, hchpp⟩ := List.mem_flatten.mp hch
  obtain ⟨p, hpL, rfl⟩ := List.mem_map.mp hpp
  obtain ⟨hne, hcls⟩ := hmem p hpL
  cases p with
  | nil => exact absurd rfl hne
  | cons ph pt =>
    simp only [capitalizePart] at hchpp
    rcases List.mem_cons.mp hchpp with rfl | hmem'
    · exact toUpper_ne_hyphen (hcls ph (by simp))
    · have := hcls ch (List.mem_cons_of_mem _ hmem')
      rcases Bool.or_eq_true _ _ |>.mp this with hl | hd
      · exact isLowerAlpha_ne_hyphen hl
      · exact isDigitCh_ne_hyphen hd


/-! ## Lemmas: occurrence preservation across the patchers' splices -/

theorem sContains_mono_append {c d nd : Cs} (h : sContains c nd = true) :
    sContains (c ++ d) nd = true := by
  rw [sContains_eq_true_iff] at h ⊢
  exact h.trans (List.prefix_append c d).isInfix

theorem subIdx_none_append {c R nd : Cs} (h1 : subIdx c nd = none)
    (h2 : subIdx R nd = none) (hnl : '\n' ∉ nd) (hR : R.head? = some '\n') :
    subIdx (c ++ R) nd = none := by
  rw [subIdx_none_iff] at h1 h2 ⊢
  exact not_infix_append_nlBlock h1 h2 hnl hR

theorem lastSubIdx_none_append {c R nd : Cs} (h1 : lastSubIdx c nd = none)
    (h2 : lastSubIdx R nd = none) (hnl : '\n' ∉ nd) (hR : R.head? = some '\n') :
    lastSubIdx (c ++ R) nd = none := by
  rw [lastSubIdx_none_iff] at h1 h2 ⊢
  exact not_infix_append_nlBlock h1 h2 hnl hR

/-- On a routes file that already carries both import markers and contains
neither insertion anchor, `addRoutesToIndex`'s content transformation is
exactly an end-of-file append of the route block. -/
theorem addRoutesToIndexContent_append {p n c : Cs}
    (h1 : sContains c "ContentfulStatusCode".data = true)
    (h2 : sContains c ("Load".data ++ p ++ "ResponseSchema".data) = true)
    (h3 : subIdx c catchallPat = none)
    (h4 : lastSubIdx c "export default".data = none) :
    addRoutesToIndexContent p n c = c ++ routesToAdd p n := by
  have hA : addContentfulImport c = c := by
    unfold addContentfulImport
    rw [if_pos h1]
  have hB : addSchemaImports p c c = c := by
    unfold addSchemaImports
    rw [if_pos h2]
  unfold addRoutesToIndexContent
  rw [hA, hB]
  unfold insertRoutesBlock
  rw [h3, h4]


theorem breakAfterChar_some {ch : Char} {l p q : Cs}
    (h : breakAfterChar ch l = some (p, q)) :
    l = p ++ q ∧ ∃ pFront, p = pFront ++ [ch] := by
  induction l generalizing p q with
  | nil => exact absurd h (by simp [breakAfterChar])
  | cons x xs ih =>
    unfold breakAfterChar at h
    by_cases hx : x = ch
    · rw [if_pos hx] at h
      have h' := Option.some.inj h
      have hp : p = [x] := (congrArg Prod.fst h').symm
      have hq : q = xs := (congrArg Prod.snd h').symm
      subst hp; subst hq
      exact ⟨rfl, ⟨[], by simp [hx]⟩⟩
    · rw [if_neg hx] at h
      cases hrec : breakAfterChar ch xs with
      | none => rw [hrec] at h; exact absurd h (by simp)
      | some pq =>
        obtain ⟨p', q'⟩ := pq
        rw [hrec] at h
        have h2 : some ((x :: p' : Cs), q') = some (p, q) := h
        have h' := Option.some.inj h2
        have hp : p = x :: p' := (congrArg Prod.fst h').symm
        have hq : q = q' := (congrArg Prod.snd h').symm
        subst hp; subst hq
        obtain ⟨hl, pf, hpf⟩ := ih hrec
        exact ⟨by rw [hl]; simp, x :: pf, by rw [hpf]; simp⟩

theorem insertAfterLastImportLine_spec (c ins : Cs) :
    ∃ A B, insertAfterLastImportLine c ins = A ++ (ins ++ '\n' :: B) ∧
      c = A ++ B ∧ (A = [] ∨ ∃ A2, A = A2 ++ ['\n']) := by
  rcases hbr : breakAfterChar '\n' (List.drop ((lastSubIdx c "import ".data).getD 0) c)
    with _ | ⟨p, q⟩
  · refine ⟨[], c, ?_, by simp, Or.inl rfl⟩
    simp only [insertAfterLastImportLine, hbr]
    simp [show ("\n".data : Cs) = ['\n'] from rfl]
  · obtain ⟨hl, pf, hpf⟩ := breakAfterChar_some hbr
    refine ⟨List.take ((lastSubIdx c "import ".data).getD 0) c ++ p, q, ?_, ?_,
      Or.inr ⟨List.take ((lastSubIdx c "import ".data).getD 0) c ++ pf, by rw [hpf]; simp⟩⟩
    · simp only [insertAfterLastImportLine, hbr]
      simp [show ("\n".data : Cs) = ['\n'] from rfl, List.append_assoc]
    · conv_lhs => rw [← List.take_append_drop ((lastSubIdx c "import ".data).getD 0) c]
      rw [hl]
      simp


/-- A routes file already containing the `ContentfulStatusCode` and
`Load…ResponseSchema` markers with neither insertion anchor: the import
steps skip and the route block is appended at end-of-file, with no warning
and a write performed. -/
theorem addRoutesToIndex_append_eof {name p c : Cs}
    (hp : toPascalCase name = .ok p)
    (h1 : sContains c "ContentfulStatusCode".data = true)
    (h2 : sContains c ("Load".data ++ p ++ "ResponseSchema".data) = true)
    (h3 : subIdx c catchallPat = none)
    (h4 : lastSubIdx c "export default".data = none) :
    addRoutesToIndex name (some c) =
      .ok ⟨some (c ++ routesToAdd p name), false, true⟩ := by
  simp only [addRoutesToIndex, hp]
  show Except.ok (WriteResult.mk (some (addRoutesToIndexContent p name c)) false true) = _
  rw [addRoutesToIndexContent_append h1 h2 h3 h4]


theorem lastSubIdx_none_of_subIdx_none {hay nd : Cs} (h : subIdx hay nd = none) :
    lastSubIdx hay nd = none := by
  rw [lastSubIdx_none_iff]
  rw [subIdx_none_iff] at h
  exact h



/-- If `m` occurs neither in `Y` nor in `R`, and `R`'s first character does
not occur in `m`, then `m` does not occur in `Y ++ R`. -/
theorem not_infix_append_headC {m Y R : Cs} {hc : Char} (hY : ¬ m <:+: Y)
    (hR : ¬ m <:+: R) (hhead : R.head? = some hc) (hmem : hc ∉ m) :
    ¬ m <:+: Y ++ R := by
  intro h
  rcases infix_append_split h with h1 | h2 | ⟨s, t, hmeq, _, ht, _, htp⟩
  · exact hY h1
  · exact hR h2
  · cases t with
    | nil => exact ht rfl
    | cons th tt =>
      obtain ⟨u, hu⟩ := htp
      have hth : th = hc := by
        have := congrArg List.head? hu
        rw [hhead] at this
        simpa using this
      exact hmem (by rw [hmeq, hth]; simp)

/-- If `m` occurs neither in `Y` nor in `R`, and `Y`'s last character does
not occur in `m`, then `m` does not occur in `Y ++ R`. -/
theorem not_infix_append_lastC {m Y R : Cs} {lc : Char} (hY : ¬ m <:+: Y)
    (hR : ¬ m <:+: R) (hlast : Y.getLast? = some lc) (hmem : lc ∉ m) :
    ¬ m <:+: Y ++ R := by
  intro h
  rcases infix_append_split h with h1 | h2 | ⟨s, t, hmeq, hs, _, hsx, _⟩
  · exact hY h1
  · exact hR h2
  · have hYne : Y ≠ [] := by
      intro hY0; rw [hY0] at hsx; exact hs (List.suffix_nil.mp hsx)
    have h1 : s.getLast hs = Y.getLast hYne := List.IsSuffix.getLast hsx hs
    have h2 : Y.getLast hYne = lc :=
      Option.some.inj ((List.getLast?_eq_getLast Y hYne).symm.trans hlast)
    have h3 : lc ∈ s := by
      have := List.getLast_mem hs
      rw [h1, h2] at this
      exact this
    exact hmem (by rw [hmeq]; exact List.mem_append_left _ h3)

/-- If `m` occurs neither in `Y` nor in `R` and no nonempty proper prefix of
`m` is a suffix of `Y`, then `m` does not occur in `Y ++ R`. -/
theorem not_infix_append_noTail {m Y R : Cs} (hY : ¬ m <:+: Y) (hR : ¬ m <:+: R)
    (hov : ∀ j, 0 < j → j < m.length → ¬ (m.take j <:+ Y)) :
    ¬ m <:+: Y ++ R := by
  intro h
  rcases infix_append_split h with h1 | h2 | ⟨s, t, hmeq, hs, ht, hsx, _⟩
  · exact hY h1
  · exact hR h2
  · refine hov s.length ?_ ?_ ?_
    · cases s with
      | nil => exact absurd rfl hs
      | cons _ _ => simp
    · have h0 : 0 < t.length := by
        cases t with
        | nil => exact absurd rfl ht
        | cons _ _ => simp
      rw [hmeq, List.length_append]
      omega
    · rw [hmeq, List.take_left]
      exact hsx

/-- If `m` occurs neither in `Y` nor in `R1 ++ R2`, is no longer than `R1`,
and no split of `m` has its front a suffix of `Y` and its back a prefix of
`R1`, then `m` does not occur in `Y ++ (R1 ++ R2)`. -/
theorem not_infix_append_noSpan {m Y R1 R2 : Cs} (hY : ¬ m <:+: Y)
    (hR : ¬ m <:+: R1 ++ R2) (hlen : m.length ≤ R1.length)
    (hspan : ∀ j, 0 < j → j < m.length →
      ¬ (m.take j <:+ Y ∧ m.drop j <+: R1)) :
    ¬ m <:+: Y ++ (R1 ++ R2) := by
  intro h
  rcases infix_append_split h with h1 | h2 | ⟨s, t, hmeq, hs, ht, hsx, htp⟩
  · exact hY h1
  · exact hR h2
  · have hsl : 0 < s.length := by
      cases s with
      | nil => exact absurd rfl hs
      | cons _ _ => simp
    have htl : 0 < t.length := by
      cases t with
      | nil => exact absurd rfl ht
      | cons _ _ => simp
    have hmlen : m.length = s.length + t.length := by rw [hmeq]; simp
    refine hspan s.length hsl (by omega) ⟨?_, ?_⟩
    · rw [hmeq, List.take_left]; exact hsx
    · rw [hmeq, List.drop_left]
      exact List.prefix_of_prefix_length_le htp (List.prefix_append R1 R2) (by omega)

/-- `replaceFirst` either leaves the text unchanged or replaces one actual
occurrence in place. -/
theorem replaceFirst_cases (hay nd repl : Cs) :
    replaceFirst hay nd repl = hay ∨
    ∃ pre post, hay = pre ++ (nd ++ post) ∧
      replaceFirst hay nd repl = pre ++ (repl ++ post) := by
  induction hay with
  | nil =>
    by_cases hnd : nd.isEmpty = true
    · right
      refine ⟨[], [], ?_, ?_⟩
      · simp [List.isEmpty_iff.mp hnd]
      · simp [replaceFirst, hnd]
    · left
      simp [replaceFirst, hnd]
  | cons x xs ih =>
    by_cases hpre : nd.isPrefixOf (x :: xs) = true
    · right
      obtain ⟨rest, hrest⟩ := List.isPrefixOf_iff_prefix.mp hpre
      refine ⟨[], (x :: xs).drop nd.length, ?_, ?_⟩
      · simp only [List.nil_append]
        conv_lhs => rw [← hrest]
        rw [← hrest, List.drop_left]
      · simp [replaceFirst, hpre]
    · rcases ih with h | ⟨pre, post, heq, hres⟩
      · left
        simp [replaceFirst, hpre, h]
      · right
        refine ⟨x :: pre, post, by rw [List.cons_append, ← heq], ?_⟩
        simp [replaceFirst, hpre, hres]

/-- A successful leftmost scan succeeds at some suffix. -/
theorem scanFirst_some {α : Type} {f : Cs → Option α} {l : Cs} {r : α}
    (h : scanFirst f l = some r) : ∃ t, t <:+ l ∧ f t = some r := by
  induction l with
  | nil => exact ⟨[], List.suffix_rfl, h⟩
  | cons x xs ih =>
    unfold scanFirst at h
    rcases hf : f (x :: xs) with _ | r'
    · rw [hf] at h
      obtain ⟨t, hts, hft⟩ := ih h
      exact ⟨t, hts.trans (List.suffix_cons x xs), hft⟩
    · rw [hf] at h
      exact ⟨x :: xs, List.suffix_rfl, hf.trans h⟩

/-- Trimming yields an infix of the original text. -/
theorem jsTrim_occurs (s : Cs) : jsTrim s <:+: s := by
  unfold jsTrim
  have h1 : s.dropWhile isJsWs <:+ s := List.dropWhile_suffix isJsWs
  have h2 : ((s.dropWhile isJsWs).reverse.dropWhile isJsWs) <:+
      (s.dropWhile isJsWs).reverse := List.dropWhile_suffix isJsWs
  have h3 := List.reverse_prefix.mpr h2
  rw [List.reverse_reverse] at h3
  exact h3.isInfix.trans h1.isInfix

/-- Dropping a trailing comma yields an infix of the original text. -/
theorem stripTrailingComma_occurs (s : Cs) : stripTrailingComma s <:+: s := by
  unfold stripTrailingComma
  split
  · next rest heq =>
    have h1 : (',' :: rest : Cs) <:+ s.reverse := heq ▸ List.dropWhile_suffix isJsWs
    have h2 : rest <:+ s.reverse := (List.suffix_cons ',' rest).trans h1
    have h3 := List.reverse_prefix.mpr h2
    rw [List.reverse_reverse] at h3
    exact h3.isInfix
  · exact List.infix_rfl

/-- The group a successful schemas-import match returns occurs in the
scanned text. -/
theorem matchSchemasImportAt_g_occurs {l matched g : Cs}
    (h : matchSchemasImportAt l = some (matched, g)) : g <:+: l := by
  simp only [matchSchemasImportAt] at h
  repeat' split at h
  all_goals try exact Option.noConfusion h
  all_goals
    have hsnd : List.takeWhile (fun c => decide (c ≠ '\x7d')) (List.drop 8 l) = g :=
      congrArg Prod.snd (Option.some.inj h)
  all_goals rw [← hsnd]
  all_goals
    exact (List.takeWhile_prefix _).isInfix.trans (List.drop_suffix 8 l).isInfix

/-- The group a successful status-code-import match returns occurs in the
scanned text. -/
theorem matchHonoImportAt_g_occurs {l matched g : Cs}
    (h : matchHonoImportAt l = some (matched, g)) : g <:+: l := by
  simp only [matchHonoImportAt] at h
  repeat' split at h
  all_goals try exact Option.noConfusion h
  all_goals rename List.drop _ (List.drop 6 l) = '\x7b' :: _ => heq
  all_goals
    have hsnd : List.takeWhile (fun c => decide (c ≠ '\x7d')) _ = g :=
      congrArg Prod.snd (Option.some.inj h)
  all_goals rw [← hsnd]
  all_goals
    have h2 := List.drop_suffix (List.takeWhile isJsWs (List.drop 6 l)).length
      (List.drop 6 l)
  all_goals rw [heq] at h2
  all_goals
    exact (List.takeWhile_prefix _).isInfix.trans
      ((((List.suffix_cons _ _).trans h2).trans (List.drop_suffix 6 l)).isInfix)

/-- A digit is unchanged by `toUpper`. -/
theorem toUpper_digit {c : Char} (h : isDigitCh c = true) : c.toUpper = c := by
  have h' : 48 ≤ c.toNat ∧ c.toNat ≤ 57 := by
    simpa [isDigitCh, Bool.and_eq_true, decide_eq_true_eq] using h
  exact toUpper_eq_self_of_lt (by omega)

/-- Characters of capitalized valid segments are alphanumeric. -/
theorem capitalize_chars_alnum {L : List Cs}
    (hall : L.all validPart = true) :
    ∀ ch ∈ (L.map capitalizePart).flatten,
      (isUpperAlpha ch || isLowerAlpha ch || isDigitCh ch) = true := by
  intro ch hch
  obtain ⟨pp, hpp, hchpp⟩ := List.mem_flatten.mp hch
  obtain ⟨q, hqL, rfl⟩ := List.mem_map.mp hpp
  have hvq : validPart q = true := by
    rw [List.all_eq_true] at hall
    exact hall q hqL
  simp only [validPart, Bool.and_eq_true, List.all_eq_true] at hvq
  obtain ⟨hne, hcls⟩ := hvq
  cases q with
  | nil => exact absurd hchpp (by simp [capitalizePart])
  | cons d rest =>
    simp only [capitalizePart] at hchpp
    rcases List.mem_cons.mp hchpp with rfl | hmem
    · rcases Bool.or_eq_true _ _ |>.mp (hcls d (by simp)) with hl | hd
      · simp [isUpperAlpha_toUpper hl]
      · simp [toUpper_digit hd, hd]
    · have hc2 := hcls ch (List.mem_cons_of_mem _ hmem)
      rcases Bool.or_eq_true _ _ |>.mp hc2 with hl | hd
      · simp [hl]
      · simp [hd]

/-- A successful `toPascalCase` yields a nonempty result headed by an
uppercase letter or digit, with every character alphanumeric. -/
theorem toPascalCase_ok_shape {name p : Cs} (h : toPascalCase name = .ok p) :
    (∃ h0 t, p = h0 :: t ∧ (isUpperAlpha h0 || isDigitCh h0) = true) ∧
    (∀ ch ∈ p, (isUpperAlpha ch || isLowerAlpha ch || isDigitCh ch) = true) := by
  simp only [toPascalCase] at h
  by_cases h1 : name.isEmpty = true
  · rw [if_pos h1] at h; exact Except.noConfusion h
  rw [if_neg h1] at h
  by_cases h2 : ((splitHyphen name).filter (fun q => !q.isEmpty)).isEmpty = true
  · rw [if_pos h2] at h; exact Except.noConfusion h
  rw [if_neg h2] at h
  by_cases h3 : ((splitHyphen name).filter (fun q => !q.isEmpty)).all validPart = true
  case neg => rw [if_neg h3] at h; exact Except.noConfusion h
  rw [if_pos h3] at h
  have hp := (Except.ok.inj h).symm
  constructor
  · rcases hP : (splitHyphen name).filter (fun q => !q.isEmpty) with _ | ⟨q, qs⟩
    · rw [hP] at h2; exact absurd rfl h2
    · have hvq : validPart q = true := by
        rw [List.all_eq_true] at h3
        exact h3 q (by rw [hP]; simp)
      simp only [validPart, Bool.and_eq_true, List.all_eq_true] at hvq
      obtain ⟨hne, hcls⟩ := hvq
      rcases hq : q with _ | ⟨c0, t0⟩
      · rw [hq] at hne; exact absurd hne (by simp)
      · refine ⟨c0.toUpper, t0 ++ ((qs.map capitalizePart).flatten), ?_, ?_⟩
        · rw [hp, hP, hq]; simp [capitalizePart]
        · have hc0 : (isLowerAlpha c0 || isDigitCh c0) = true := hcls c0 (by rw [hq]; simp)
          rcases Bool.or_eq_true _ _ |>.mp hc0 with hl | hd
          · simp [isUpperAlpha_toUpper hl]
          · simp [toUpper_digit hd, hd]
  · intro ch hch
    rw [hp] at hch
    exact capitalize_chars_alnum h3 ch hch

/-- A needle containing a non-alphanumeric character does not occur in a
successful PascalCase result. -/
theorem not_infix_pascal {m name p : Cs} (hp : toPascalCase name = .ok p)
    {bad : Char} (hbad : bad ∈ m)
    (hcls : (isUpperAlpha bad || isLowerAlpha bad || isDigitCh bad) = false) :
    ¬ m <:+: p := by
  intro h
  have h2 := (toPascalCase_ok_shape hp).2 bad (h.subset hbad)
  rw [hcls] at h2
  exact Bool.noConfusion h2

/-- A needle `m` free of newlines, of the characters `i`, `,` and `;`, not
occurring in the fixed fragments of the status-code import step and with no
boundary overlap with them, cannot be created by `addContentfulImport`:
absent from `c`, it is absent from the result. -/
theorem addContentfulImport_preserves {m c : Cs}
    (hmc : ¬ m <:+: c)
    (hnl : '\n' ∉ m) (hi : 'i' ∉ m) (hcomma : ',' ∉ m) (hsemi : ';' ∉ m)
    (hbody : ¬ m <:+:
      ("import \x7b ContentfulStatusCode \x7d from \"hono/utils/http-status\";".data : Cs))
    (hA1 : ¬ m <:+: ("import \x7b ".data : Cs))
    (hA2 : ¬ m <:+: (", ContentfulStatusCode".data : Cs))
    (hA3 : ¬ m <:+: (" \x7d from \"hono/utils/http-status\";".data : Cs))
    (hlen3 : m.length ≤ (" \x7d from \"hono/utils/http-status\";".data : Cs).length)
    (hovA1 : ∀ j, j < m.length → 0 < j →
      ¬ (m.take j <:+ ("import \x7b ".data : Cs)))
    (hspanA2 : ∀ j, j < m.length → 0 < j →
      ¬ (m.take j <:+ (", ContentfulStatusCode".data : Cs) ∧
         m.drop j <+: (" \x7d from \"hono/utils/http-status\";".data : Cs))) :
    ¬ m <:+: addContentfulImport c := by
  simp only [addContentfulImport]
  by_cases hg : sContains c "ContentfulStatusCode".data = true
  · rw [if_pos hg]; exact hmc
  rw [if_neg hg]
  split
  · -- no existing status-code import: insert a fresh line after the first
    -- line containing `import` (or leave the text alone)
    split
    · next pp q hbr =>
      obtain ⟨hsplit, pf, hpf⟩ := breakAfterChar_some hbr
      have hre : (c.take ((subIdx c "import".data).getD 0) ++ pp ++ honoImportLine ++ q : Cs) =
          (c.take ((subIdx c "import".data).getD 0) ++ pp) ++
            (("import \x7b ContentfulStatusCode \x7d from \"hono/utils/http-status\";".data : Cs)
              ++ '\n' :: q) := by
        rw [show honoImportLine =
          ("import \x7b ContentfulStatusCode \x7d from \"hono/utils/http-status\";".data : Cs)
            ++ ['\n'] from rfl]
        simp [List.append_assoc]
      rw [hre]
      refine not_infix_splice hnl ?_ hbody
        (Or.inr ⟨c.take ((subIdx c "import".data).getD 0) ++ pf, by rw [hpf]; simp⟩)
      have hc : (c.take ((subIdx c "import".data).getD 0) ++ pp) ++ q = c := by
        rw [List.append_assoc, ← hsplit, List.take_append_drop]
      rw [hc]
      exact hmc
    · exact hmc
  · next matched g hscan =>
    by_cases hg2 : sContains (jsTrim g) "ContentfulStatusCode".data = true
    · rw [if_pos hg2]; exact hmc
    rw [if_neg hg2]
    have hginf : g <:+: c := by
      obtain ⟨t, ht, hft⟩ := scanFirst_some hscan
      exact (matchHonoImportAt_g_occurs hft).trans ht.isInfix
    have hX : ¬ m <:+: stripTrailingComma (jsTrim g) := fun hx =>
      hmc (hx.trans (((stripTrailingComma_occurs (jsTrim g)).trans (jsTrim_occurs g)).trans hginf))
    rcases replaceFirst_cases c matched
        ("import \x7b ".data ++ stripTrailingComma (jsTrim g) ++
          ", ContentfulStatusCode".data ++
          " \x7d from \"hono/utils/http-status\";".data) with hsame | ⟨pre, post, hceq, hres⟩
    · rw [hsame]; exact hmc
    · rw [hres]
      have hpre : ¬ m <:+: pre := fun hx =>
        hmc (hx.trans (List.IsPrefix.isInfix ⟨matched ++ post, hceq.symm⟩))
      have hpost : ¬ m <:+: post := fun hx =>
        hmc (hx.trans (List.IsSuffix.isInfix
          ⟨pre ++ matched, by rw [hceq]; simp [List.append_assoc]⟩))
      simp only [List.append_assoc]
      have s1 : ¬ m <:+: ((" \x7d from \"hono/utils/http-status\";".data : Cs) ++ post) :=
        not_infix_append_lastC hA3 hpost rfl hsemi
      have s2 : ¬ m <:+: ((", ContentfulStatusCode".data : Cs) ++
          ((" \x7d from \"hono/utils/http-status\";".data : Cs) ++ post)) :=
        not_infix_append_noSpan hA2 s1 hlen3 (fun j h1 h2 => hspanA2 j h2 h1)
      have s3 : ¬ m <:+: (stripTrailingComma (jsTrim g) ++
          ((", ContentfulStatusCode".data : Cs) ++
            ((" \x7d from \"hono/utils/http-status\";".data : Cs) ++ post))) :=
        not_infix_append_headC hX s2 rfl hcomma
      have s4 : ¬ m <:+: (("import \x7b ".data : Cs) ++
          (stripTrailingComma (jsTrim g) ++
            ((", ContentfulStatusCode".data : Cs) ++
              ((" \x7d from \"hono/utils/http-status\";".data : Cs) ++ post)))) :=
        not_infix_append_noTail hA1 s3 (fun j h1 h2 => hovA1 j h2 h1)
      exact not_infix_append_headC hpre s4 rfl hi

/-- A needle `m` free of newlines, of the characters `i`, `,`, `;` and the
opening brace, containing no uppercase letter or digit but some
non-alphanumeric character, and not occurring in the fixed fragments of the
schema-import step, cannot be created by `addSchemaImports`: absent from
the original text `c` and the updated text `u`, it is absent from the
result. -/
theorem addSchemaImports_preserves {m c u p : Cs}
    (hmc : ¬ m <:+: c) (hmu : ¬ m <:+: u)
    (hphead : ∃ h0 t, p = h0 :: t ∧ (isUpperAlpha h0 || isDigitCh h0) = true)
    (hmp : ¬ m <:+: p)
    (hi : 'i' ∉ m) (hcomma : ',' ∉ m) (hsemi : ';' ∉ m) (hnl : '\n' ∉ m)
    (hbrace : '\x7b' ∉ m)
    (hupper : ∀ ch ∈ m, isUpperAlpha ch = false)
    (hdigit : ∀ ch ∈ m, isDigitCh ch = false)
    (hl1 : ¬ m <:+: ("import \x7b".data : Cs))
    (hl2 : ¬ m <:+: (",\n  Load".data : Cs))
    (hl3 : ¬ m <:+: ("ResponseSchema,\n  Save".data : Cs))
    (hl4 : ¬ m <:+: ("RequestSchema,\n  Save".data : Cs))
    (hl5 : ¬ m <:+:
      ("ResponseSchema\n\x7d from \"@shared/types/request-response-schemas\";".data : Cs))
    (hs1 : ¬ m <:+: ("import \x7b\n  Load".data : Cs))
    (hs4 : ¬ m <:+:
      ("ResponseSchema,\n\x7d from \"@shared/types/request-response-schemas\";\n".data : Cs)) :
    ¬ m <:+: addSchemaImports p c u := by
  obtain ⟨h0, t0, hpeq, hcls⟩ := hphead
  have hR : 'R' ∉ m := fun hmem => absurd (hupper 'R' hmem) (by decide)
  have hh0 : h0 ∉ m := fun hmem => by
    rcases Bool.or_eq_true _ _ |>.mp hcls with hcl | hcl
    · rw [hupper h0 hmem] at hcl; exact Bool.noConfusion hcl
    · rw [hdigit h0 hmem] at hcl; exact Bool.noConfusion hcl
  simp only [addSchemaImports]
  by_cases hg : sContains c ("Load".data ++ p ++ "ResponseSchema".data) = true
  · rw [if_pos hg]; exact hmu
  rw [if_neg hg]
  split
  · next matched g hscan =>
    have hginf : g <:+: c := by
      obtain ⟨t, ht, hft⟩ := scanFirst_some hscan
      exact (matchSchemasImportAt_g_occurs hft).trans ht.isInfix
    have hX : ¬ m <:+: stripTrailingComma (jsTrim g) := fun hx =>
      hmc (hx.trans (((stripTrailingComma_occurs (jsTrim g)).trans (jsTrim_occurs g)).trans hginf))
    rcases replaceFirst_cases u matched
        ("import \x7b".data ++ stripTrailingComma (jsTrim g) ++ ",\n  Load".data ++ p ++
          "ResponseSchema,\n  Save".data ++ p ++ "RequestSchema,\n  Save".data ++ p ++
          "ResponseSchema\n\x7d from \"@shared/types/request-response-schemas\";".data)
        with hsame | ⟨pre, post, hueq, hres⟩
    · rw [hsame]; exact hmu
    · rw [hres]
      have hpre : ¬ m <:+: pre := fun hx =>
        hmu (hx.trans (List.IsPrefix.isInfix ⟨matched ++ post, hueq.symm⟩))
      have hpost : ¬ m <:+: post := fun hx =>
        hmu (hx.trans (List.IsSuffix.isInfix
          ⟨pre ++ matched, by rw [hueq]; simp [List.append_assoc]⟩))
      simp only [List.append_assoc]
      have c1 : ¬ m <:+:
          (("ResponseSchema\n\x7d from \"@shared/types/request-response-schemas\";".data : Cs)
            ++ post) :=
        not_infix_append_lastC hl5 hpost rfl hsemi
      have c2 : ¬ m <:+: (p ++
          (("ResponseSchema\n\x7d from \"@shared/types/request-response-schemas\";".data : Cs)
            ++ post)) :=
        not_infix_append_headC hmp c1 rfl hR
      have c3 : ¬ m <:+: (("RequestSchema,\n  Save".data : Cs) ++ (p ++
          (("ResponseSchema\n\x7d from \"@shared/types/request-response-schemas\";".data : Cs)
            ++ post))) :=
        not_infix_append_headC hl4 c2 (by rw [hpeq]; rfl) hh0
      have c4 : ¬ m <:+: (p ++ (("RequestSchema,\n  Save".data : Cs) ++ (p ++
          (("ResponseSchema\n\x7d from \"@shared/types/request-response-schemas\";".data : Cs)
            ++ post)))) :=
        not_infix_append_headC hmp c3 rfl hR
      have c5 : ¬ m <:+: (("ResponseSchema,\n  Save".data : Cs) ++ (p ++
          (("RequestSchema,\n  Save".data : Cs) ++ (p ++
          (("ResponseSchema\n\x7d from \"@shared/types/request-response-schemas\";".data : Cs)
            ++ post))))) :=
        not_infix_append_headC hl3 c4 (by rw [hpeq]; rfl) hh0
      have c6 : ¬ m <:+: (p ++ (("ResponseSchema,\n  Save".data : Cs) ++ (p ++
          (("RequestSchema,\n  Save".data : Cs) ++ (p ++
          (("ResponseSchema\n\x7d from \"@shared/types/request-response-schemas\";".data : Cs)
            ++ post)))))) :=
        not_infix_append_headC hmp c5 rfl hR
      have c7 : ¬ m <:+: ((",\n  Load".data : Cs) ++ (p ++
          (("ResponseSchema,\n  Save".data : Cs) ++ (p ++
          (("RequestSchema,\n  Save".data : Cs) ++ (p ++
          (("ResponseSchema\n\x7d from \"@shared/types/request-response-schemas\";".data : Cs)
            ++ post))))))) :=
        not_infix_append_headC hl2 c6 (by rw [hpeq]; rfl) hh0
      have c8 : ¬ m <:+: (stripTrailingComma (jsTrim g) ++ ((",\n  Load".data : Cs) ++ (p ++
          (("ResponseSchema,\n  Save".data : Cs) ++ (p ++
          (("RequestSchema,\n  Save".data : Cs) ++ (p ++
          (("ResponseSchema\n\x7d from \"@shared/types/request-response-schemas\";".data : Cs)
            ++ post)))))))) :=
        not_infix_append_headC hX c7 rfl hcomma
      have c9 : ¬ m <:+: (("import \x7b".data : Cs) ++ (stripTrailingComma (jsTrim g) ++
          ((",\n  Load".data : Cs) ++ (p ++
          (("ResponseSchema,\n  Save".data : Cs) ++ (p ++
          (("RequestSchema,\n  Save".data : Cs) ++ (p ++
          (("ResponseSchema\n\x7d from \"@shared/types/request-response-schemas\";".data : Cs)
            ++ post))))))))) :=
        not_infix_append_lastC hl1 c8 rfl hbrace
      exact not_infix_append_headC hpre c9 rfl hi
  · split
    · next i hidx =>
      have hTake : ¬ m <:+: u.take i := fun hx =>
        hmu (hx.trans (List.take_prefix i u).isInfix)
      have hDrop : ¬ m <:+: u.drop i := fun hx =>
        hmu (hx.trans (List.drop_suffix i u).isInfix)
      simp only [schemasImportNew, List.append_assoc]
      have d1 : ¬ m <:+:
          (("ResponseSchema,\n\x7d from \"@shared/types/request-response-schemas\";\n".data : Cs)
            ++ u.drop i) :=
        not_infix_append_lastC hs4 hDrop rfl hnl
      have d2 : ¬ m <:+: (p ++
          (("ResponseSchema,\n\x7d from \"@shared/types/request-response-schemas\";\n".data : Cs)
            ++ u.drop i)) :=
        not_infix_append_headC hmp d1 rfl hR
      have d3 : ¬ m <:+: (("RequestSchema,\n  Save".data : Cs) ++ (p ++
          (("ResponseSchema,\n\x7d from \"@shared/types/request-response-schemas\";\n".data : Cs)
            ++ u.drop i))) :=
        not_infix_append_headC hl4 d2 (by rw [hpeq]; rfl) hh0
      have d4 : ¬ m <:+: (p ++ (("RequestSchema,\n  Save".data : Cs) ++ (p ++
          (("ResponseSchema,\n\x7d from \"@shared/types/request-response-schemas\";\n".data : Cs)
            ++ u.drop i)))) :=
        not_infix_append_headC hmp d3 rfl hR
      have d5 : ¬ m <:+: (("ResponseSchema,\n  Save".data : Cs) ++ (p ++
          (("RequestSchema,\n  Save".data : Cs) ++ (p ++
          (("ResponseSchema,\n\x7d from \"@shared/types/request-response-schemas\";\n".data : Cs)
            ++ u.drop i))))) :=
        not_infix_append_headC hl3 d4 (by rw [hpeq]; rfl) hh0
      have d6 : ¬ m <:+: (p ++ (("ResponseSchema,\n  Save".data : Cs) ++ (p ++
          (("RequestSchema,\n  Save".data : Cs) ++ (p ++
          (("ResponseSchema,\n\x7d from \"@shared/types/request-response-schemas\";\n".data : Cs)
            ++ u.drop i)))))) :=
        not_infix_append_headC hmp d5 rfl hR
      have d7 : ¬ m <:+: (("import \x7b\n  Load".data : Cs) ++ (p ++
          (("ResponseSchema,\n  Save".data : Cs) ++ (p ++
          (("RequestSchema,\n  Save".data : Cs) ++ (p ++
          (("ResponseSchema,\n\x7d from \"@shared/types/request-response-schemas\";\n".data : Cs)
            ++ u.drop i))))))) :=
        not_infix_append_headC hs1 d6 (by rw [hpeq]; rfl) hh0
      exact not_infix_append_headC hTake d7 rfl hi
    · exact hmu

/-- The import steps cannot introduce the catch-all anchor. -/
theorem catchall_not_introduced {name p c : Cs} (hp : toPascalCase name = .ok p)
    (h3 : ¬ catchallPat <:+: c) :
    ¬ catchallPat <:+: addSchemaImports p c (addContentfulImport c) := by
  obtain ⟨hhead, _⟩ := toPascalCase_ok_shape hp
  have hstepA : ¬ catchallPat <:+: addContentfulImport c :=
    addContentfulImport_preserves h3 (by decide) (by decide) (by decide) (by decide)
      (by decide) (by decide) (by decide) (by decide) (by decide) (by decide) (by decide)
  exact addSchemaImports_preserves h3 hstepA hhead
    (not_infix_pascal hp (show '.' ∈ catchallPat by decide) (by decide))
    (by decide) (by decide) (by decide) (by decide) (by decide)
    (by decide) (by decide)
    (by decide) (by decide) (by decide) (by decide) (by decide) (by decide) (by decide)

/-- The import steps cannot introduce the default-export anchor. -/
theorem exportDefault_not_introduced {name p c : Cs} (hp : toPascalCase name = .ok p)
    (h4 : ¬ ("export default".data : Cs) <:+: c) :
    ¬ ("export default".data : Cs) <:+:
      addSchemaImports p c (addContentfulImport c) := by
  obtain ⟨hhead, _⟩ := toPascalCase_ok_shape hp
  have hstepA : ¬ ("export default".data : Cs) <:+: addContentfulImport c :=
    addContentfulImport_preserves h4 (by decide) (by decide) (by decide) (by decide)
      (by decide) (by decide) (by decide) (by decide) (by decide) (by decide) (by decide)
  exact addSchemaImports_preserves h4 hstepA hhead
    (not_infix_pascal hp (show ' ' ∈ ("export default".data : Cs) by decide) (by decide))
    (by decide) (by decide) (by decide) (by decide) (by decide)
    (by decide) (by decide)
    (by decide) (by decide) (by decide) (by decide) (by decide) (by decide) (by decide)

/-- On a routes file containing neither anchor, the two import-insertion
steps of `addRoutesToIndex` leave both anchors absent. -/
theorem import_steps_keep_no_anchor {name p c : Cs} (hp : toPascalCase name = .ok p)
    (h3 : subIdx c catchallPat = none)
    (h4 : lastSubIdx c "export default".data = none) :
    subIdx (addSchemaImports p c (addContentfulImport c)) catchallPat = none ∧
    lastSubIdx (addSchemaImports p c (addContentfulImport c))
      "export default".data = none := by
  constructor
  · rw [subIdx_none_iff]
    exact catchall_not_introduced hp (subIdx_none_iff.mp h3)
  · rw [lastSubIdx_none_iff]
    exact exportDefault_not_introduced hp (lastSubIdx_none_iff.mp h4)


/-! ## The claims -/

theorem csEq_refl (l : Cs) : csEq l l = true := by
  induction l with
  | nil => rfl
  | cons x xs ih => simp [csEq, ih]

set_option maxRecDepth 10000 in
theorem routesFileTwice_csEq : csEq routesFileTwice routesFileOnce = false := by decide

/-- C1 counterexample: patching the example routes file for `user-profile`
once and then a second time does not reproduce the first output — the second
application inserts the route-handler block again, so `addRoutesToIndex` is
not idempotent. -/
theorem routePatch_not_idempotent_cex :
    addRoutesToIndex "user-profile".data (some routesFileFixture) =
      .ok ⟨some routesFileOnce, false, true⟩ ∧
    addRoutesToIndex "user-profile".data (some routesFileOnce) =
      .ok ⟨some routesFileTwice, false, true⟩ ∧
    routesFileTwice ≠ routesFileOnce := by
  refine ⟨rfl, rfl, ?_⟩
  intro h
  have h2 : csEq routesFileTwice routesFileOnce = true := by
    rw [h]
    exact csEq_refl _
  rw [routesFileTwice_csEq] at h2
  exact absurd h2 (by simp)

set_option maxRecDepth 10000 in
theorem upRouteBlock_no_catchall : subIdx upRouteBlock catchallPat = none := by decide

set_option maxRecDepth 10000 in
theorem upRouteBlock_no_exportDefault :
    lastSubIdx upRouteBlock "export default".data = none :=
  lastSubIdx_none_of_subIdx_none (by decide)

/-- C1 amended: on a routes file that already carries the
`ContentfulStatusCode` and `LoadUserProfileResponseSchema` markers and has
neither insertion anchor, a second `user-profile` patch is not a no-op: it
appends the route block a second time. -/
theorem routePatch_second_apply_duplicates (c : Cs)
    (h1 : sContains c "ContentfulStatusCode".data = true)
    (h2 : sContains c "LoadUserProfileResponseSchema".data = true)
    (h3 : subIdx c catchallPat = none)
    (h4 : lastSubIdx c "export default".data = none) :
    addRoutesToIndex "user-profile".data (some c) =
      .ok ⟨some (c ++ upRouteBlock), false, true⟩ ∧
    addRoutesToIndex "user-profile".data (some (c ++ upRouteBlock)) =
      .ok ⟨some (c ++ upRouteBlock ++ upRouteBlock), false, true⟩ ∧
    c ++ upRouteBlock ++ upRouteBlock ≠ c ++ upRouteBlock := by
  have hp : toPascalCase "user-profile".data = .ok "UserProfile".data := rfl
  have h2' : sContains c ("Load".data ++ "UserProfile".data ++ "ResponseSchema".data) = true := h2
  have hRhead : upRouteBlock.head? = some '\n' := rfl
  have hRcatch := upRouteBlock_no_catchall
  have hRexp := upRouteBlock_no_exportDefault
  refine ⟨addRoutesToIndex_append_eof hp h1 h2' h3 h4, ?_, ?_⟩
  · exact addRoutesToIndex_append_eof hp
      (sContains_mono_append h1) (sContains_mono_append h2')
      (subIdx_none_append h3 hRcatch (by decide) hRhead)
      (lastSubIdx_none_append h4 hRexp (by decide) hRhead)
  · intro h
    have hlen := congrArg List.length h
    simp only [List.length_append] at hlen
    have hne : upRouteBlock ≠ [] := by
      intro hnil
      rw [hnil] at hRhead
      exact absurd hRhead (by simp)
    have : upRouteBlock.length ≠ 0 := fun h0 => hne (List.length_eq_zero.mp h0)
    omega

/-- C2 counterexample: on a routes file with no catch-all route and no
default export, the patcher appends the block (and writes the file) but the
warning the claim requires is not emitted (`warned = false`). -/
theorem routePatch_no_anchor_cex :
    subIdx bareRoutesFile catchallPat = none ∧
    lastSubIdx bareRoutesFile "export default".data = none ∧
    addRoutesToIndex "user-profile".data (some bareRoutesFile) =
      .ok ⟨some bareRoutesFileAfter, false, true⟩ := by
  exact ⟨by decide, by decide, rfl⟩

/-- C2 amended: on every routes file with no catch-all route and no default
export, `addRoutesToIndex` appends the route block at end-of-file, after the
import-insertion steps (which cannot introduce either anchor); the file is
written and no warning is emitted. -/
theorem routePatch_no_anchor_appends_at_eof {name p c : Cs}
    (hp : toPascalCase name = .ok p)
    (h3 : subIdx c catchallPat = none)
    (h4 : lastSubIdx c "export default".data = none) :
    addRoutesToIndex name (some c) =
      .ok ⟨some (addSchemaImports p c (addContentfulImport c) ++ routesToAdd p name),
            false, true⟩ := by
  obtain ⟨k3, k4⟩ := import_steps_keep_no_anchor hp h3 h4
  simp only [addRoutesToIndex, hp]
  show Except.ok (WriteResult.mk (some (addRoutesToIndexContent p name c)) false true) = _
  unfold addRoutesToIndexContent insertRoutesBlock
  rw [k3, k4]

/-- Witness for the C2 theorem at `user-profile` on a concrete no-anchor
routes file without either import marker. -/
theorem routePatch_no_anchor_appends_at_eof_witness :
    toPascalCase "user-profile".data = .ok "UserProfile".data ∧
    subIdx bareRoutesFile catchallPat = none ∧
    lastSubIdx bareRoutesFile "export default".data = none ∧
    addRoutesToIndex "user-profile".data (some bareRoutesFile) =
      .ok ⟨some (addSchemaImports "UserProfile".data bareRoutesFile
            (addContentfulImport bareRoutesFile) ++
            routesToAdd "UserProfile".data "user-profile".data), false, true⟩ :=
  ⟨rfl, by decide, by decide,
    routePatch_no_anchor_appends_at_eof rfl (by decide) (by decide)⟩

/-- Witness for the C1 amended theorem on the same concrete marker file. -/
theorem routePatch_second_apply_duplicates_witness :
    (sContains markersRoutesFile "ContentfulStatusCode".data = true ∧
     sContains markersRoutesFile "LoadUserProfileResponseSchema".data = true ∧
     subIdx markersRoutesFile catchallPat = none ∧
     lastSubIdx markersRoutesFile "export default".data = none) ∧
    addRoutesToIndex "user-profile".data (some (markersRoutesFile ++ upRouteBlock)) =
      .ok ⟨some (markersRoutesFile ++ upRouteBlock ++ upRouteBlock), false, true⟩ :=
  ⟨⟨by decide, by decide, by decide, by decide⟩,
    (routePatch_second_apply_duplicates markersRoutesFile
      (by decide) (by decide) (by decide) (by decide)).2.1⟩


set_option maxRecDepth 10000 in
/-- C3: the three name forms of `user-profile`, and `updateViteConfig` on
the example config: exactly one `user-profile` entry pointing at
`src/client/user-profile/index.html` is added (none was present before),
with a write and no warning. -/
theorem userProfile_name_forms_and_vite_entry :
    toPascalCase "user-profile".data = .ok "UserProfile".data ∧
    toCamelCase "user-profile".data = .ok "userProfile".data ∧
    toScreamingSnakeCase "user-profile".data = "USER_PROFILE".data ∧
    updateViteConfig "user-profile".data (some viteConfigFixture) =
      ⟨some viteConfigFixtureAfter, false, true⟩ ∧
    countSub viteConfigFixture upViteEntryNeedle = 0 ∧
    countSub viteConfigFixtureAfter upViteEntryNeedle = 1 := by
  refine ⟨rfl, rfl, by decide, rfl, ?_, ?_⟩
  · decide
  · decide

/-- C9: when the `input:` mapping regex finds no match in an existing vite
config, `updateViteConfig` warns and leaves the file untouched, performing
no write. -/
theorem viteConfig_no_anchor_warns_untouched (pageName c : Cs)
    (h : findInputMatch c = none) :
    updateViteConfig pageName (some c) = ⟨some c, true, false⟩ := by
  simp only [updateViteConfig, h]

/-- Witness for the C9 theorem on a concrete anchor-free config. -/
theorem viteConfig_no_anchor_warns_untouched_witness :
    findInputMatch viteConfigNoAnchor = none ∧
    updateViteConfig "user-profile".data (some viteConfigNoAnchor) =
      ⟨some viteConfigNoAnchor, true, false⟩ :=
  ⟨by decide, viteConfig_no_anchor_warns_untouched "user-profile".data viteConfigNoAnchor
    (by decide)⟩

/-- C10: on an existing server index file that contains neither the router
mount statement nor any `app.listen` occurrence, `updateMainServer` rewrites
the file so that it contains the import statement, silently does not insert
the mount statement, and prints no warning.  The side conditions ask that
the needles behave as in the source's use: the mount statement is a single
line, and the import statement for this route name does not itself embed
`app.listen` or the mount statement. -/
theorem updateMainServer_no_listen_inserts_import_only (routeName c : Cs)
    (hmount : sContains c (mountStatement routeName) = false)
    (hlisten : sContains c "app.listen".data = false)
    (hIlisten : sContains (importStatement routeName) "app.listen".data = false)
    (hImount : sContains (importStatement routeName) (mountStatement routeName) = false)
    (hmln : '\n' ∉ mountStatement routeName) :
    ∃ cOut, updateMainServer routeName (some c) = ⟨some cOut, false, true⟩ ∧
      sContains cOut (importStatement routeName) = true ∧
      sContains cOut (mountStatement routeName) = false := by
  have hmountStepId : ∀ d : Cs, sContains d (mountStatement routeName) = false →
      subIdx d "app.listen".data = none → mountStep d (mountStatement routeName) = d := by
    intro d h1 h2
    unfold mountStep
    rw [if_neg (by simp [h1]), h2]
  by_cases hin : sContains c (importStatement routeName) = true
  · refine ⟨c, ?_, hin, hmount⟩
    simp only [updateMainServer, hin, if_true]
    rw [hmountStepId c hmount (subIdx_none_iff.mpr (sContains_eq_false_iff.mp hlisten))]
  · have hin' : sContains c (importStatement routeName) = false := by
      cases h : sContains c (importStatement routeName)
      · rfl
      · exact absurd h hin
    obtain ⟨A, B, heq, hc, hA⟩ := insertAfterLastImportLine_spec c (importStatement routeName)
    have hcAB : ∀ nd : Cs, sContains c nd = false → ¬ nd <:+: A ++ B := by
      intro nd h
      rw [← hc]
      exact sContains_eq_false_iff.mp h
    have hmount1 : ¬ (mountStatement routeName) <:+:
        A ++ (importStatement routeName ++ '\n' :: B) :=
      not_infix_splice hmln (hcAB _ hmount) (sContains_eq_false_iff.mp hImount) hA
    have hlisten1 : ¬ ("app.listen".data : Cs) <:+:
        A ++ (importStatement routeName ++ '\n' :: B) :=
      not_infix_splice (by decide) (hcAB _ hlisten) (sContains_eq_false_iff.mp hIlisten) hA
    refine ⟨insertAfterLastImportLine c (importStatement routeName), ?_, ?_, ?_⟩
    · simp only [updateMainServer, hin', Bool.false_eq_true, if_false]
      rw [hmountStepId _ (by rw [heq]; exact sContains_eq_false_iff.mpr hmount1)
        (by rw [heq]; exact subIdx_none_iff.mpr hlisten1)]
    · rw [heq]
      rw [sContains_eq_true_iff]
      exact ⟨A, '\n' :: B, by simp⟩
    · rw [heq]
      exact sContains_eq_false_iff.mpr hmount1

/-- Witness for the C10 theorem: route name `foo` on a one-line server file. -/
theorem updateMainServer_no_listen_inserts_import_only_witness :
    (sContains serverIndexFixture (mountStatement "foo".data) = false ∧
     sContains serverIndexFixture "app.listen".data = false ∧
     sContains (importStatement "foo".data) "app.listen".data = false ∧
     sContains (importStatement "foo".data) (mountStatement "foo".data) = false ∧
     '\n' ∉ mountStatement "foo".data) ∧
    (∃ cOut, updateMainServer "foo".data (some serverIndexFixture) =
        ⟨some cOut, false, true⟩ ∧
      sContains cOut (importStatement "foo".data) = true ∧
      sContains cOut (mountStatement "foo".data) = false) :=
  ⟨⟨by decide, by decide, by decide, by decide, by decide⟩,
    updateMainServer_no_listen_inserts_import_only "foo".data serverIndexFixture
      (by decide) (by decide) (by decide) (by decide) (by decide)⟩


/-- Symbolic evaluation of `createDashboardPageFlow`: given the values of
the name transforms and of the two fallible patch steps, the flow returns
the combined file state (page files emitted in order, schemas file updated,
vite config updated twice) and the warning count of the four patch steps. -/
theorem createDashboardPageFlow_eval (name p m : Cs) (fs : GenFs)
    (hp : toPascalCase name = .ok p) (hm : toCamelCase name = .ok m)
    (r s : WriteResult)
    (hr : addRoutesToIndex name fs.routesFile = .ok r)
    (hs : addUserShardFunctions name fs.userShardFile = .ok s) :
    createDashboardPageFlow name fs = .ok
      (⟨r.file, s.file,
        some (updateSchemasFile p m fs.schemasFile),
        (updateViteConfig name ((updateViteConfig name fs.viteConfig).file)).file,
        fs.emitted ++
          ["src/client/".data ++ name ++ "/index.html".data,
           "src/client/".data ++ name ++ "/index.tsx".data,
           ("src/client/".data ++ name ++ "/".data) ++ p ++ ".tsx".data,
           ("src/client/".data ++ name ++ "/".data) ++ p ++ ".tsx".data,
           ("src/client/".data ++ name ++ "/".data) ++ p ++ "Context.tsx".data,
           ("src/client/".data ++ name ++ "/".data) ++ m ++ "EventProcessor.ts".data] ++
          [("src/client/".data ++ name ++ "/".data) ++ p ++ "ApiClient.ts".data] ++
          [("src/client/".data ++ name ++ "/".data) ++ p ++ "AutosaveService.ts".data,
           ("src/client/".data ++ name ++ "/".data) ++ p ++ "UndoRedoService.ts".data] ++
          ["shared/types/".data ++ m ++ "Events.ts".data]⟩,
       (if (updateViteConfig name fs.viteConfig).warned then 1 else 0) +
         (if r.warned then 1 else 0) + (if s.warned then 1 else 0) +
         (if (updateViteConfig name ((updateViteConfig name fs.viteConfig).file)).warned
            then 1 else 0)) := by
  simp only [createDashboardPageFlow, hp, hm, Except.bind]
  simp only [hr, hs]
  rfl


theorem addRoutesToIndex_ok {name p : Cs} (hp : toPascalCase name = .ok p)
    (file : Option Cs) : ∃ r, addRoutesToIndex name file = .ok r := by
  cases file with
  | none => exact ⟨⟨none, true, false⟩, by simp only [addRoutesToIndex, hp]; rfl⟩
  | some c =>
    exact ⟨⟨some (addRoutesToIndexContent p name c), false, true⟩,
      by simp only [addRoutesToIndex, hp]; rfl⟩

theorem addUserShardFunctions_ok {name p m : Cs} (hp : toPascalCase name = .ok p)
    (hm : toCamelCase name = .ok m) (file : Option Cs) :
    ∃ s, addUserShardFunctions name file = .ok s := by
  cases file with
  | none => exact ⟨⟨none, true, false⟩, by simp only [addUserShardFunctions, hp, hm]; rfl⟩
  | some c =>
    exact ⟨⟨some (addUserShardContent p m name c), false, true⟩,
      by simp only [addUserShardFunctions, hp, hm]; rfl⟩

/-- C4: on every name matching `^[a-z][a-z0-9-]*$`, `toPascalCase` and
`toCamelCase` return (rather than throw), deterministically (they are
functions); the camelCase result starts with a lowercase letter, the
PascalCase result with an uppercase letter, and neither contains a hyphen. -/
theorem caseTransforms_total_on_kebab (name : Cs) (h : matchesKebabShape name = true) :
    ∃ pas cam, toPascalCase name = .ok pas ∧ toCamelCase name = .ok cam ∧
      (∃ c0 t, pas = c0 :: t ∧ isUpperAlpha c0 = true) ∧
      (∃ c0 t, cam = c0 :: t ∧ isLowerAlpha c0 = true) ∧
      (∀ ch ∈ pas, ch ≠ '-') ∧ (∀ ch ∈ cam, ch ≠ '-') := by
  cases name with
  | nil => exact absurd h (by simp [matchesKebabShape])
  | cons c0 rest =>
    simp only [matchesKebabShape, Bool.and_eq_true, List.all_eq_true] at h
    obtain ⟨h0, hall⟩ := h
    obtain ⟨q, qs, hparts, hvalid⟩ := parts_of_shape h0 hall
    have hpartsfact : ∀ p ∈ (splitHyphen (c0 :: rest)).filter (fun p => !p.isEmpty),
        p ≠ [] ∧ ∀ ch ∈ p, (isLowerAlpha ch || isDigitCh ch) = true := by
      intro p hp
      obtain ⟨hmem, hne⟩ := List.mem_filter.mp hp
      exact ⟨by simpa using hne, splitHyphen_chars_valid h0 hall p hmem⟩
    have hpas : toPascalCase (c0 :: rest) =
        .ok ((((splitHyphen (c0 :: rest)).filter (fun p => !p.isEmpty)).map capitalizePart).flatten) := by
      unfold toPascalCase
      rw [if_neg (by simp)]
      simp only []
      rw [if_neg (by rw [hparts]; simp), if_pos hvalid]
    have hcam : toCamelCase (c0 :: rest) = .ok ((c0 :: q) ++ ((qs.map capitalizePart).flatten)) := by
      unfold toCamelCase
      rw [if_neg (by simp)]
      simp only []
      rw [if_neg (by rw [hparts]; simp), if_pos hvalid, hparts]
    refine ⟨_, _, hpas, hcam, ?_, ?_, ?_, ?_⟩
    · rw [hparts]
      exact ⟨c0.toUpper, q ++ ((qs.map capitalizePart).flatten),
        by simp [capitalizePart], isUpperAlpha_toUpper h0⟩
    · exact ⟨c0, q ++ ((qs.map capitalizePart).flatten), by simp, h0⟩
    · exact flatten_capitalize_no_hyphen hpartsfact
    · intro ch hch
      rcases List.mem_append.mp hch with hin | hin
      · have hq : (c0 :: q) ∈ (splitHyphen (c0 :: rest)).filter (fun p => !p.isEmpty) := by
          rw [hparts]; simp
        obtain ⟨hmem, _⟩ := List.mem_filter.mp hq
        exact (mem_splitHyphen_mem hmem ch hin).2
      · refine flatten_capitalize_no_hyphen ?_ ch hin
        intro p hp
        exact hpartsfact p (by rw [hparts]; exact List.mem_cons_of_mem _ hp)

/-- Witness for the C4 theorem at `user-profile`. -/
theorem caseTransforms_total_on_kebab_witness :
    matchesKebabShape "user-profile".data = true ∧
    (∃ pas cam, toPascalCase "user-profile".data = .ok pas ∧
      toCamelCase "user-profile".data = .ok cam ∧
      (∃ c0 t, pas = c0 :: t ∧ isUpperAlpha c0 = true) ∧
      (∃ c0 t, cam = c0 :: t ∧ isLowerAlpha c0 = true) ∧
      (∀ ch ∈ pas, ch ≠ '-') ∧ (∀ ch ∈ cam, ch ≠ '-')) :=
  ⟨by decide, caseTransforms_total_on_kebab "user-profile".data (by decide)⟩

/-- C5: a second `create-page` invocation with a name that passes validation
while `src/client/<name>` already exists is refused with exit code 1 and the
collision message; the guard model returns `Except.error`, so no generation
flow (where every file write happens) is entered. -/
theorem collisionGuard_refuses_existing (name : Cs)
    (hvalid : validatePageName name = none) :
    createPageGuard name true =
      .error (1, "Page \"".data ++ name ++ "\" already exists at src/client/".data ++ name) := by
  unfold createPageGuard
  rw [hvalid]
  rfl

/-- Witness for the C5 theorem at `user-profile`. -/
theorem collisionGuard_refuses_existing_witness :
    validatePageName "user-profile".data = none ∧
    createPageGuard "user-profile".data true =
      .error (1, "Page \"".data ++ "user-profile".data ++
        "\" already exists at src/client/".data ++ "user-profile".data) :=
  ⟨by decide, collisionGuard_refuses_existing "user-profile".data (by decide)⟩

/-- C6: the names `class`, `import`, `index` and `default` are rejected with
exit code 1 by the validation checks, for ANY state of the page directory:
the result does not depend on the `pageDirExists` flag, which models the
command's first file-system access, so the rejection precedes any file read
or write. -/
theorem reservedNames_rejected_before_fs (b : Bool) :
    createPageGuard "class".data b =
      .error (1, "Page name \"".data ++ "class".data ++
        "\" is a reserved JavaScript/TypeScript keyword".data) ∧
    createPageGuard "import".data b =
      .error (1, "Page name \"".data ++ "import".data ++
        "\" is a reserved JavaScript/TypeScript keyword".data) ∧
    createPageGuard "index".data b =
      .error (1, "Page name \"".data ++ "index".data ++
        "\" is a reserved name and might cause conflicts".data) ∧
    createPageGuard "default".data b =
      .error (1, "Page name \"".data ++ "default".data ++
        "\" is a reserved JavaScript/TypeScript keyword".data) :=
  ⟨rfl, rfl, rfl, rfl⟩

/-- C7: with the routes file and the UserShard file both missing, each
patcher warns and returns without writing, and the dashboard flow still
completes: the schemas step, the events-file emission and both vite-config
updates all run, and at least the two missing-file warnings are printed. -/
theorem missingCollaborators_warn_skip_continue (name p m : Cs)
    (hp : toPascalCase name = .ok p) (hm : toCamelCase name = .ok m)
    (fs : GenFs) (hr : fs.routesFile = none) (hs : fs.userShardFile = none) :
    addRoutesToIndex name none = .ok ⟨none, true, false⟩ ∧
    addUserShardFunctions name none = .ok ⟨none, true, false⟩ ∧
    ∃ out, createDashboardPageFlow name fs = .ok out ∧
      out.1.routesFile = none ∧ out.1.userShardFile = none ∧
      out.1.schemasFile = some (updateSchemasFile p m fs.schemasFile) ∧
      out.1.viteConfig =
        (updateViteConfig name ((updateViteConfig name fs.viteConfig).file)).file ∧
      ("shared/types/".data ++ m ++ "Events.ts".data) ∈ out.1.emitted ∧
      2 ≤ out.2 := by
  have hroutes : addRoutesToIndex name none = .ok ⟨none, true, false⟩ := by
    simp only [addRoutesToIndex, hp]; rfl
  have hshard : addUserShardFunctions name none = .ok ⟨none, true, false⟩ := by
    simp only [addUserShardFunctions, hp, hm]; rfl
  refine ⟨hroutes, hshard, ?_⟩
  have heval := createDashboardPageFlow_eval name p m fs hp hm
    ⟨none, true, false⟩ ⟨none, true, false⟩
    (by rw [hr]; exact hroutes) (by rw [hs]; exact hshard)
  refine ⟨_, heval, rfl, rfl, rfl, rfl, by simp, ?_⟩
  simp only []
  split_ifs <;> omega

/-- Witness for the C7 theorem: `user-profile` on a state with both
collaborator files missing. -/
theorem missingCollaborators_warn_skip_continue_witness :
    (toPascalCase "user-profile".data = .ok "UserProfile".data ∧
     toCamelCase "user-profile".data = .ok "userProfile".data ∧
     genFsMissing.routesFile = none ∧ genFsMissing.userShardFile = none) ∧
    addRoutesToIndex "user-profile".data none = .ok ⟨none, true, false⟩ ∧
    addUserShardFunctions "user-profile".data none = .ok ⟨none, true, false⟩ ∧
    (∃ out, createDashboardPageFlow "user-profile".data genFsMissing = .ok out ∧
      out.1.routesFile = none ∧ out.1.userShardFile = none ∧
      out.1.schemasFile =
        some (updateSchemasFile "UserProfile".data "userProfile".data
          genFsMissing.schemasFile) ∧
      out.1.viteConfig =
        (updateViteConfig "user-profile".data
          ((updateViteConfig "user-profile".data genFsMissing.viteConfig).file)).file ∧
      ("shared/types/".data ++ "userProfile".data ++ "Events.ts".data) ∈ out.1.emitted ∧
      2 ≤ out.2) := by
  refine ⟨⟨rfl, rfl, rfl, rfl⟩, ?_⟩
  have h := missingCollaborators_warn_skip_continue "user-profile".data
    "UserProfile".data "userProfile".data rfl rfl genFsMissing rfl rfl
  exact ⟨h.1, h.2.1, h.2.2⟩

/-- C8: the dashboard flow's schemas step creates the schemas file as the
fixed preamble (zod import, `ErrorResponseSchema`, `ErrorResponse`) followed
by the identifier's generated declarations when the file is missing, and
appends the declarations to the existing content otherwise. -/
theorem schemasFile_created_or_appended (name p m : Cs)
    (hp : toPascalCase name = .ok p) (hm : toCamelCase name = .ok m) (fs : GenFs) :
    (fs.schemasFile = none →
      ∃ out, createDashboardPageFlow name fs = .ok out ∧
        out.1.schemasFile = some (schemasPreamble ++ typesToAppend p m)) ∧
    (∀ c, fs.schemasFile = some c →
      ∃ out, createDashboardPageFlow name fs = .ok out ∧
        out.1.schemasFile = some (c ++ typesToAppend p m)) := by
  obtain ⟨r, hrok⟩ := addRoutesToIndex_ok hp fs.routesFile
  obtain ⟨s, hsok⟩ := addUserShardFunctions_ok hp hm fs.userShardFile
  have heval := createDashboardPageFlow_eval name p m fs hp hm r s hrok hsok
  constructor
  · intro hnone
    exact ⟨_, heval, by simp [updateSchemasFile, hnone]⟩
  · intro c hsome
    exact ⟨_, heval, by simp [updateSchemasFile, hsome]⟩

/-- Witness for the C8 theorem: `user-profile` on a state with no schemas
file. -/
theorem schemasFile_created_or_appended_witness :
    (toPascalCase "user-profile".data = .ok "UserProfile".data ∧
     toCamelCase "user-profile".data = .ok "userProfile".data ∧
     genFsNoSchemas.schemasFile = none) ∧
    (∃ out, createDashboardPageFlow "user-profile".data genFsNoSchemas = .ok out ∧
      out.1.schemasFile = some (schemasPreamble ++
        typesToAppend "UserProfile".data "userProfile".data)) :=
  ⟨⟨rfl, rfl, rfl⟩,
    (schemasFile_created_or_appended "user-profile".data "UserProfile".data
      "userProfile".data rfl rfl genFsNoSchemas).1 rfl⟩

end DolphinCli
